import Mathlib

/-!
# zdb: a shallow embedding of `scanner.go` and of the normalizer of `utils.go`

The row scanner (`scanner.go`) and the input normalizer (`parseMaps`,
`parseStruct` of `utils.go`) work through Go's `reflect` package.  The
insert builder is not among the sources; its section follows the
specification.  The embedding represents

* a `reflect.Type` by a descriptor `GoType` (name, the method-set facts the
  scanner asks about, and the shape of the type; descriptors are finite, so a
  type is never its own element type),
* a Go value by a `GoVal` tree, a pointer owning the variable it points to
  (every pointer the scanner writes through is either the caller's destination
  or freshly allocated by `reflect.New`),
* an `interface{}` by an optional pair of dynamic type and value (`Val`),
* a `map[string]interface{}` by an association list with unique keys (`Row`),
* the row cursor `IfeRows` by the script of answers it will give (`Rows`),
* a run-time panic by the outcome `Res.fault`.

Go `string` and `[]byte` payloads are byte sequences; both are represented by a
Lean `String` whose characters stand for the bytes.  Functions of libraries
outside the repository whose text the scanner does not fix (snake-casing, time
formatting, float parsing, user-written `Scan` and `UnmarshalByte` methods, the
stack dump) are fields of `Env`; those of the normalizer are fields of
`NormEnv`.
-/

namespace Zdb

/-! ## reflect: kinds, types, values -/

/-- The kinds of `reflect.Kind`, listed in the order of their numeric codes. -/
inductive Kind where
  | Invalid | Bool | Int | Int8 | Int16 | Int32 | Int64
  | Uint | Uint8 | Uint16 | Uint32 | Uint64 | Uintptr
  | Float32 | Float64 | Complex64 | Complex128
  | Array | Chan | Func | Interface | Map | Ptr | Slice | String | Struct
  | UnsafePointer
  deriving DecidableEq, Repr

/-- Numeric code of a kind, as in package reflect. -/
def Kind.code : Kind → Nat
  | .Invalid => 0 | .Bool => 1 | .Int => 2 | .Int8 => 3 | .Int16 => 4
  | .Int32 => 5 | .Int64 => 6 | .Uint => 7 | .Uint8 => 8 | .Uint16 => 9
  | .Uint32 => 10 | .Uint64 => 11 | .Uintptr => 12 | .Float32 => 13
  | .Float64 => 14 | .Complex64 => 15 | .Complex128 => 16 | .Array => 17
  | .Chan => 18 | .Func => 19 | .Interface => 20 | .Map => 21 | .Ptr => 22
  | .Slice => 23 | .String => 24 | .Struct => 25 | .UnsafePointer => 26

/-- Method-set facts of a type `T` that the scanner queries.
`scanAddr`: `*T` implements `sql.Scanner` (what `rv.Addr().Interface().(sql.Scanner)` tests).
`unmarshal`: `T` itself implements `ByteUnmarshaler`.
`ptrUnmarshal`: `*T` implements `ByteUnmarshaler`. -/
structure Caps where
  scanAddr : Bool
  unmarshal : Bool
  ptrUnmarshal : Bool
  deriving DecidableEq, Repr

/-- The method set of a type without the two capabilities. -/
def noCaps : Caps := ⟨false, false, false⟩

mutual
/-- Descriptor of a Go type: its name (empty for a type literal), its
method-set facts and its shape.  Two descriptors are the same type exactly when
they are equal. -/
inductive GoType where
  | mk (name : String) (caps : Caps) (shape : Shape)
/-- Shape of a type.  `atom k` is a type of a non-composite kind `k`
(bool, the numeric kinds, string, and kinds whose structure the scanner never
looks into); `iface` is the empty interface. -/
inductive Shape where
  | atom (k : Kind)
  | ptr (elem : GoType)
  | slice (elem : GoType)
  | struct (fields : Fields)
  | iface
/-- Declared fields of a struct type, in declaration order: field name,
whether the field is exported (settable through reflection), the value found
under the key `BindTag` in the field tag if any, and the field type. -/
inductive Fields where
  | nil
  | cons (name : String) (exported : Bool) (tag : Option String) (ty : GoType)
      (rest : Fields)
end

deriving instance DecidableEq for GoType, Shape, Fields

/-- One entry of `reflect.Type.Field(i)`. -/
structure StructField where
  name : String
  exported : Bool
  tag : Option String
  ty : GoType

/-- The fields of a struct type as a list. -/
def Fields.toList : Fields → List StructField
  | .nil => []
  | .cons n e t ty rest => ⟨n, e, t, ty⟩ :: rest.toList

/-- Go values.  `int` holds a signed integer of any width, `uint` an unsigned
one, `float` an IEEE bit pattern, `str` a string, `bytes` a `[]byte`,
`ptr none` a nil pointer, `slice none` a nil slice, `iface none` a nil
interface, `other` a value of a kind the scanner never looks into (code 0 is
its zero value, nil for maps, channels and functions). -/
inductive GoVal where
  | bool (b : Bool)
  | int (v : Int)
  | uint (v : Nat)
  | float (bits : Nat)
  | str (s : String)
  | bytes (s : String)
  | ptr (target : Option GoVal)
  | slice (elems : Option (List GoVal))
  | struct (fields : List GoVal)
  | iface (dyn : Option (GoType × GoVal))
  | other (code : Nat)

/-- A non-nil `interface{}`: dynamic type and value. -/
structure Dyn where
  ty : GoType
  val : GoVal

/-- An `interface{}` value; `none` is the nil interface. -/
abbrev Val := Option Dyn

/-- A `map[string]interface{}`: association list, keys unique. -/
abbrev Row := List (String × Val)

def GoType.name : GoType → String
  | .mk n _ _ => n

def GoType.caps : GoType → Caps
  | .mk _ c _ => c

def GoType.shape : GoType → Shape
  | .mk _ _ s => s

/-- Kind of a type of the given shape.  The four kinds that have a shape of
their own are not kinds of an atom: an atom labelled with one denotes no Go
type and reports `Invalid`. -/
def Shape.kind : Shape → Kind
  | .atom .Ptr => .Invalid
  | .atom .Slice => .Invalid
  | .atom .Struct => .Invalid
  | .atom .Interface => .Invalid
  | .atom k => k
  | .ptr _ => .Ptr
  | .slice _ => .Slice
  | .struct _ => .Struct
  | .iface => .Interface

/-- Result of `reflect.Type.Kind`. -/
def GoType.kind (t : GoType) : Kind :=
  t.shape.kind

/-- Result of `reflect.Type.Elem` for pointer and slice types; `none` where the
descriptor records no element type (there `Elem` panics, or the type is an
array, map or channel atom, which the embedding does not look into). -/
def GoType.elem? : GoType → Option GoType
  | .mk _ _ (.ptr e) => some e
  | .mk _ _ (.slice e) => some e
  | _ => none

/-- The type `*T` as `reflect.New(T)` reports it. -/
def ptrTo (t : GoType) : GoType :=
  .mk "" ⟨false, t.caps.ptrUnmarshal, false⟩ (.ptr t)

mutual
/-- The zero value of a type, as `reflect.New(T).Elem()` holds it. -/
def zero : GoType → GoVal
  | .mk _ _ s => zeroShape s
/-- The zero value of a shape. -/
def zeroShape : Shape → GoVal
  | .atom .Bool => .bool false
  | .atom .Int => .int 0
  | .atom .Int8 => .int 0
  | .atom .Int16 => .int 0
  | .atom .Int32 => .int 0
  | .atom .Int64 => .int 0
  | .atom .Uint => .uint 0
  | .atom .Uint8 => .uint 0
  | .atom .Uint16 => .uint 0
  | .atom .Uint32 => .uint 0
  | .atom .Uint64 => .uint 0
  | .atom .Uintptr => .uint 0
  | .atom .Float32 => .float 0
  | .atom .Float64 => .float 0
  | .atom .String => .str ""
  | .atom _ => .other 0
  | .ptr _ => .ptr none
  | .slice _ => .slice none
  | .struct fs => .struct (zeroFields fs)
  | .iface => .iface none
/-- The zero values of the fields of a struct type. -/
def zeroFields : Fields → List GoVal
  | .nil => []
  | .cons _ _ _ ty rest => zero ty :: zeroFields rest
end

/-- Result of `reflect.Value.IsNil` on a value of a kind that has a nil. -/
def GoVal.isNil : GoVal → Bool
  | .ptr none => true
  | .slice none => true
  | .iface none => true
  | .other 0 => true
  | _ => false

/-- Kinds on which `reflect.Value.IsNil` does not panic. -/
def canBeNil (k : Kind) : Bool :=
  k = .Chan || k = .Func || k = .Interface || k = .Map || k = .Ptr || k = .Slice
    || k = .UnsafePointer

/-- Field values of a struct value. -/
def GoVal.fields : GoVal → List GoVal
  | .struct fs => fs
  | _ => []

/-! ## Predeclared and library types -/

def tBool : GoType := .mk "bool" noCaps (.atom .Bool)
def tInt : GoType := .mk "int" noCaps (.atom .Int)
def tInt8 : GoType := .mk "int8" noCaps (.atom .Int8)
def tInt64 : GoType := .mk "int64" noCaps (.atom .Int64)
def tUint8 : GoType := .mk "uint8" noCaps (.atom .Uint8)
def tUint64 : GoType := .mk "uint64" noCaps (.atom .Uint64)
def tFloat32 : GoType := .mk "float32" noCaps (.atom .Float32)
def tFloat64 : GoType := .mk "float64" noCaps (.atom .Float64)
def tString : GoType := .mk "string" noCaps (.atom .String)
/-- The type `[]byte`. -/
def tBytes : GoType := .mk "" noCaps (.slice tUint8)
/-- The type `interface{}`. -/
def tAny : GoType := .mk "" noCaps .iface
/-- The type `time.Time`: a struct of three unexported fields. -/
def tTime : GoType :=
  .mk "time.Time" noCaps
    (.struct (.cons "wall" false none tUint64
      (.cons "ext" false none tInt64
        (.cons "loc" false none (ptrTo (.mk "time.Location" noCaps (.struct .nil)))
          .nil))))

/-- The `interface{}` holding the int64 `v`. -/
def Val.int64 (v : Int) : Val := some ⟨tInt64, .int v⟩
/-- The `interface{}` holding the byte sequence `s`. -/
def Val.bytes (s : String) : Val := some ⟨tBytes, .bytes s⟩
/-- The `interface{}` holding the string `s`. -/
def Val.str (s : String) : Val := some ⟨tString, .str s⟩
/-- The `interface{}` holding a `time.Time` with the given fields. -/
def Val.time (wall : Nat) (ext : Int) : Val :=
  some ⟨tTime, .struct [.uint wall, .int ext, .ptr none]⟩

/-! ## Errors and outcomes -/

/-- Go `error` values.  The first six are the package-level sentinels of
`scanner.go`; `adhoc` is an error made on the spot by `errors.New` or
`fmt.Errorf` (never identical to a sentinel); `numError` is a
`*strconv.NumError` (`range = true` for `ErrRange`, else `ErrSyntax`);
`foreign` is an error produced by a collaborator (cursor, user method). -/
inductive GoErr where
  | ErrTargetNotSettable
  | ErrNilRows
  | ErrSliceToString
  | ErrEmptyResult
  | ErrConversionFailed
  | ErrDBNotExist
  | adhoc (msg : String)
  | numError (fn : String) (num : String) (range : Bool)
  | foreign (msg : String)
  deriving DecidableEq, Repr

/-- Text of `err.Error()`. -/
def GoErr.msg : GoErr → String
  | .ErrTargetNotSettable => "target is not settable! a pointer is required"
  | .ErrNilRows => "rows can't be nil"
  | .ErrSliceToString => "can't transmute a non-uint8 slice to string"
  | .ErrEmptyResult => "empty result"
  | .ErrConversionFailed => "conversion failed"
  | .ErrDBNotExist => "the database instance does not exist"
  | .adhoc m => m
  | .numError fn num range =>
      "strconv." ++ fn ++ ": parsing \"" ++ num ++ "\": "
        ++ (if range then "value out of range" else "invalid syntax")
  | .foreign m => m

/-- How a call ends: normal return with a nil error, normal return with an
error, or a run-time panic carrying a message. -/
inductive Res where
  | ok
  | err (e : GoErr)
  | fault (msg : String)
  deriving DecidableEq, Repr

/-- Collaborators outside the repository. -/
structure Env where
  /-- The function zstring.CamelCaseToSnakeCase. -/
  CamelCaseToSnakeCase : String → String
  /-- Rendering `t.Format(ztime.TimeTpl)` of a `time.Time` value. -/
  timeFormat : GoVal → String
  /-- The function `strconv.ParseFloat(s, 64)`, on bit patterns. -/
  parseFloat : String → Except GoErr Nat
  /-- Conversion `float64(x)` of a float32. -/
  widen : Nat → Nat
  /-- Conversion `float32(x)` of a float64, done by `SetFloat` on a float32. -/
  narrow : Nat → Nat
  /-- The `Scan` method of `*T`: type `T`, the variable's contents, the source
  value; returns the outcome and the new contents. -/
  scan : GoType → GoVal → Dyn → Res × GoVal
  /-- The `UnmarshalByte` method: receiver type, receiver value, payload;
  returns the outcome and the receiver afterwards. -/
  unmarshalByte : GoType → GoVal → String → Res × GoVal
  /-- Text of `debug.Stack()`. -/
  stack : String

/-! ## strconv -/

/-- Largest uint64. -/
def maxUint64 : Nat := 2 ^ 64 - 1

/-- The digit loop of `strconv.ParseUint(s, 10, 64)`: `s0` is the whole input
(reported in errors), `n` the value read so far.  A byte that is not a decimal
digit is a syntax error; a value that leaves 64 bits is a range error; the
first offending byte decides. -/
def parseUintLoop (s0 : String) : List Char → Nat → Except GoErr Nat
  | [], n => .ok n
  | c :: cs, n =>
    if '0' ≤ c ∧ c ≤ '9' then
      let d := c.toNat - '0'.toNat
      if n ≥ maxUint64 / 10 + 1 then .error (.numError "ParseUint" s0 true)
      else if n * 10 + d > maxUint64 then .error (.numError "ParseUint" s0 true)
      else parseUintLoop s0 cs (n * 10 + d)
    else .error (.numError "ParseUint" s0 false)

/-- The function `strconv.ParseUint(s, 10, 64)`. -/
def ParseUint (s : String) : Except GoErr Nat :=
  if s = "" then .error (.numError "ParseUint" s false)
  else parseUintLoop s s.data 0

/-- The function `strconv.ParseInt(s, 10, 64)`. -/
def ParseInt (s0 : String) : Except GoErr Int :=
  match s0.data with
  | [] => .error (.numError "ParseInt" s0 false)
  | c :: cs =>
    let neg := c = '-'
    let s := if c = '+' ∨ c = '-' then String.mk cs else s0
    match ParseUint s with
    | .error (.numError _ _ false) => .error (.numError "ParseInt" s0 false)
    | .error (.numError _ _ true) => .error (.numError "ParseInt" s0 true)
    | .error e => .error e
    | .ok un =>
      if ¬ neg ∧ un ≥ 2 ^ 63 then .error (.numError "ParseInt" s0 true)
      else if neg ∧ un > 2 ^ 63 then .error (.numError "ParseInt" s0 true)
      else if neg then .ok (-(un : Int)) else .ok (un : Int)

/-- The function `strconv.FormatInt(v, 10)`. -/
def FormatInt (v : Int) : String :=
  if v < 0 then "-" ++ Nat.repr v.natAbs else Nat.repr v.natAbs

/-- Width in bits of a signed integer kind (`int` is 64 bits wide). -/
def intBits : Kind → Nat
  | .Int8 => 8 | .Int16 => 16 | .Int32 => 32 | _ => 64

/-- Width in bits of an unsigned integer kind (`uint`, `uintptr`: 64 bits). -/
def uintBits : Kind → Nat
  | .Uint8 => 8 | .Uint16 => 16 | .Uint32 => 32 | _ => 64

/-- What `reflect.Value.SetInt(v)` stores in a variable of the given kind:
`v` truncated to the width of the kind, two's complement. -/
def setInt (k : Kind) (v : Int) : GoVal :=
  .int ((v + 2 ^ (intBits k - 1)) % 2 ^ intBits k - 2 ^ (intBits k - 1))

/-- What `reflect.Value.SetUint(v)` stores in a variable of the given kind. -/
def setUint (k : Kind) (v : Nat) : GoVal :=
  .uint (v % 2 ^ uintBits k)

/-- What `reflect.Value.SetFloat(x)` stores in a variable of the given kind. -/
def setFloat (env : Env) (k : Kind) (x : Nat) : GoVal :=
  if k = .Float32 then .float (env.narrow x) else .float x

/-- Conversion `uint64(v)` of an int64. -/
def toUint64 (v : Int) : Nat := (v % 2 ^ 64).toNat

/-! ## reflect: type relations and assertions -/

/-- The relation `V.AssignableTo(T)`: identical types, or identical underlying
types one of which is unnamed, or `T` is the empty interface. -/
def assignableTo (v t : GoType) : Bool :=
  v == t || ((v.name == "" || t.name == "") && v.shape == t.shape)
    || t.kind == .Interface

/-- The relation `T.ConvertibleTo(time.Time)` for a struct type `T`: identical
underlying types (tags would be ignored; the fields of `time.Time` carry none
and, being unexported, cannot be redeclared outside package time). -/
def convertibleTo (t u : GoType) : Bool :=
  t.shape == u.shape

/-- What `rv.Set(reflect.ValueOf(out))` stores in a variable of type `vit`. -/
def setValue (vit : GoType) (d : Dyn) : GoVal :=
  if vit.kind = .Interface then .iface (some (d.ty, d.val)) else d.val

/-- The assertion `out.(int64)`; `none` when it panics. -/
def asInt64 (d : Dyn) : Option Int :=
  if d.ty = tInt64 then
    match d.val with
    | .int v => some v
    | _ => none
  else none

/-- The assertions `out.(float32)` and `out.(float64)`; `none` when it panics. -/
def asFloat (t : GoType) (d : Dyn) : Option Nat :=
  if d.ty = t then
    match d.val with
    | .float x => some x
    | _ => none
  else none

/-- Payload of a `[]byte`. -/
def GoVal.asBytes : GoVal → String
  | .bytes s => s
  | _ => ""

/-- Message of the panic raised by a failed single-value type assertion. -/
def assertFault : String := "interface conversion: interface {} is of another type"

/-! ## scanner.go -/

/-- Function `isIntSeriesType`. -/
def isIntSeriesType (k : Kind) : Bool :=
  decide (Kind.Int.code ≤ k.code) && decide (k.code ≤ Kind.Int64.code)

/-- Function `isUintSeriesType`. -/
def isUintSeriesType (k : Kind) : Bool :=
  decide (Kind.Uint.code ≤ k.code) && decide (k.code ≤ Kind.Uint64.code)

/-- Function `isFloatSeriesType`. -/
def isFloatSeriesType (k : Kind) : Bool :=
  k = .Float32 || k = .Float64

/-- The function `strings.IndexByte`: index of the first `c` in `s`, or -1. -/
def IndexByte (s : String) (c : Char) : Int :=
  if s.data.indexOf c < s.data.length then (s.data.indexOf c : Int) else -1

/-- Function `resolveTagName`: the tag up to its first comma. -/
def resolveTagName (tag : String) : String :=
  let idx := IndexByte tag ','
  if -1 = idx then tag else String.mk (tag.data.take idx.toNat)

/-- Function `lookUpTagName`, on the result of `rf.Tag.Lookup(BindTag)`. -/
def lookUpTagName (rf : StructField) : String × Bool :=
  match rf.tag with
  | none => ("", false)
  | some name => (resolveTagName name, true)

/-- Function `handleConvertTime`: `assertT` is the source `time.Time`, `mvt` its
type, `vit` the destination type, `cur` the destination's contents. -/
def handleConvertTime (env : Env) (assertT : GoVal) (mvt vit : GoType)
    (cur : GoVal) : Res × GoVal :=
  match vit.kind with
  | .String => (.ok, .str (env.timeFormat assertT))
  | .Struct =>
    if convertibleTo vit mvt then (.ok, assertT)
    else (.err (.adhoc "convert time failed"), cur)
  | _ => (.err (.adhoc "convert time failed"), cur)

/-- Function `byteUnmarshal`: `vit`, `cur` are the type and contents of
`valuei`. -/
def byteUnmarshal (env : Env) (mapValueSlice : String) (vit : GoType)
    (cur : GoVal) : Res × GoVal :=
  if ¬ canBeNil vit.kind then
    (.fault "reflect: call of reflect.Value.IsNil on a value that has no nil", cur)
  else if cur.isNil then
    match vit.elem? with
    | none => (.fault "reflect: Elem of invalid type", cur)
    | some et =>
      if ¬ (ptrTo et).caps.unmarshal then (.fault assertFault, cur)
      else
        match env.unmarshalByte (ptrTo et) (.ptr (some (zero et))) mapValueSlice with
        | (.ok, pt) =>
          if assignableTo (ptrTo et) vit then (.ok, pt)
          else (.fault "reflect.Set: value is not assignable", cur)
        | (.err e, _) =>
          (.err (.adhoc (et.name
            ++ ".UnmarshalByte fail to unmarshal the bytes, err: " ++ e.msg)), cur)
        | (.fault m, _) => (.fault m, cur)
  else
    match env.unmarshalByte vit cur mapValueSlice with
    | (.ok, pt) => (.ok, pt)
    | (.err e, pt) =>
      match vit with
      | .mk _ _ (.ptr et) =>
        (.err (.adhoc (et.name
          ++ ".UnmarshalByte fail to unmarshal the bytes, err: " ++ e.msg)), pt)
      | _ => (.fault "reflect: call of reflect.Value.Elem on a non-pointer", pt)
    | (.fault m, pt) => (.fault m, pt)

/-- Function `handleConvertSlice`: `d` is the source value (of slice kind),
`vit`, `cur` the type and contents of the destination. -/
def handleConvertSlice (env : Env) (d : Dyn) (vit : GoType) (cur : GoVal) :
    Res × GoVal :=
  if d.ty ≠ tBytes then (.err .ErrSliceToString, cur)
  else
    let mapValueStr := d.val.asBytes
    let vitKind := vit.kind
    if vitKind = .String then (.ok, .str mapValueStr)
    else if isIntSeriesType vitKind then
      match ParseInt mapValueStr with
      | .error e => (.err e, cur)
      | .ok intVal => (.ok, setInt vitKind intVal)
    else if isUintSeriesType vitKind then
      match ParseUint mapValueStr with
      | .error e => (.err e, cur)
      | .ok uintVal => (.ok, setUint vitKind uintVal)
    else if isFloatSeriesType vitKind then
      match env.parseFloat mapValueStr with
      | .error e => (.err e, cur)
      | .ok floatVal => (.ok, setFloat env vitKind floatVal)
    else if vitKind = .Bool then
      match ParseInt mapValueStr with
      | .error e => (.err e, cur)
      | .ok intVal => if intVal > 0 then (.ok, .bool true) else (.ok, .bool false)
    else if vit.caps.unmarshal then byteUnmarshal env d.val.asBytes vit cur
    else (.err .ErrConversionFailed, cur)

/-- Function `convert`: `out` is the source value, `vit` and `cur` the type and
contents of the destination `rv`, which is settable (every caller checks
`CanSet` first).  Returns the outcome and the contents of `rv` afterwards. -/
def convert (env : Env) (out : Val) (vit : GoType) (cur : GoVal) : Res × GoVal :=
  match out with
  | none => (.ok, cur)
  | some d =>
    let mvt := d.ty
    if assignableTo mvt vit then (.ok, setValue vit d)
    else if mvt = tTime then handleConvertTime env d.val mvt vit cur
    else if vit.caps.scanAddr then env.scan vit cur d
    else
      let vk := vit.kind
      match mvt.kind with
      | .Int64 =>
        if isIntSeriesType vk then
          match asInt64 d with
          | some v => (.ok, setInt vk v)
          | none => (.fault assertFault, cur)
        else if isUintSeriesType vk then
          match asInt64 d with
          | some v => (.ok, setUint vk (toUint64 v))
          | none => (.fault assertFault, cur)
        else if vk = .Bool then
          match asInt64 d with
          | some v => if v > 0 then (.ok, .bool true) else (.ok, .bool false)
          | none => (.fault assertFault, cur)
        else if vk = .String then
          match asInt64 d with
          | some v => (.ok, .str (FormatInt v))
          | none => (.fault assertFault, cur)
        else (.err .ErrConversionFailed, cur)
      | .Float32 =>
        if isFloatSeriesType vk then
          match asFloat tFloat32 d with
          | some x => (.ok, setFloat env vk (env.widen x))
          | none => (.fault assertFault, cur)
        else (.err .ErrConversionFailed, cur)
      | .Float64 =>
        if isFloatSeriesType vk then
          match asFloat tFloat64 d with
          | some x => (.ok, setFloat env vk x)
          | none => (.fault assertFault, cur)
        else (.err .ErrConversionFailed, cur)
      | .Slice => handleConvertSlice env d vit cur
      | _ => (.err .ErrConversionFailed, cur)

/-- Map assignment `m[k] = v`. -/
def Row.put : Row → String → Val → Row
  | [], k, v => [(k, v)]
  | (k', v') :: m, k, v =>
    if k' = k then (k, v) :: m else (k', v') :: Row.put m k v

/-- The `recover` of `bind`: a panic becomes the error
`fmt.Errorf("error:[%v], stack:[%s]", r, string(debug.Stack()))`. -/
def recoverFault (env : Env) (r : Res × GoVal) : Option GoErr × GoVal :=
  match r with
  | (.ok, v) => (none, v)
  | (.err e, v) => (some e, v)
  | (.fault m, v) =>
    (some (.adhoc ("error:[" ++ m ++ "], stack:[" ++ env.stack ++ "]")), v)

/-- Column name under which `bind` looks a field up: the tag name, or the
snake-cased field name when the tag name is empty. -/
def columnOf (env : Env) (fieldTypeI : StructField) : String :=
  let tagName := (lookUpTagName fieldTypeI).1
  if tagName = "" then env.CamelCaseToSnakeCase fieldTypeI.name else tagName

/-- The field loop of `bind` from index `i` on: the fields still to visit,
the index of the first of them, the field values of `rv`.  Returns the outcome
and the field values afterwards. -/
def bindFields (env : Env) (result : Row) :
    List StructField → Nat → List GoVal → Res × List GoVal
  | [], _, vals => (.ok, vals)
  | fieldTypeI :: rest, i, vals =>
    if ¬ fieldTypeI.exported then bindFields env result rest (i + 1) vals
    else
      match result.lookup (columnOf env fieldTypeI) with
      | none => bindFields env result rest (i + 1) vals
      | some none => bindFields env result rest (i + 1) vals
      | some (some d) =>
        if fieldTypeI.ty.kind = .Ptr ∧ ¬ fieldTypeI.ty.caps.unmarshal then
          match fieldTypeI.ty.elem? with
          | none => (.fault "reflect: Elem of invalid type", vals)
          | some et =>
            match convert env (some d) et (zero et) with
            | (.ok, x) =>
              bindFields env result rest (i + 1) (vals.set i (.ptr (some x)))
            | (r, x) => (r, vals.set i (.ptr (some x)))
        else
          match convert env (some d) fieldTypeI.ty
              (vals.getD i (zero fieldTypeI.ty)) with
          | (.ok, x) => bindFields env result rest (i + 1) (vals.set i x)
          | (r, x) => (r, vals.set i x)

/-- Function `bind`: `result` is the row, the next three arguments are the
type, contents and settability of `rv`.  Returns the error and the contents of
`rv` afterwards. -/
def bind (env : Env) (result : Row) : GoType → GoVal → Bool → Option GoErr × GoVal
  | .mk _ _ (.ptr ptrType), val, canSet =>
    recoverFault env
      (if ¬ canSet then (.err .ErrTargetNotSettable, val)
       else
        match bind env result ptrType (zero ptrType) true with
        | (none, newObj) => (.ok, .ptr (some newObj))
        | (some err, _) => (.err err, val))
  | .mk _ _ (.struct fs), val, canSet =>
    recoverFault env
      (if ¬ canSet then (.err .ErrTargetNotSettable, val)
       else
        match bindFields env result fs.toList 0 val.fields with
        | (r, vals) => (r, .struct vals))
  | _, val, canSet =>
    recoverFault env
      (if ¬ canSet then (.err .ErrTargetNotSettable, val)
       else (.fault "reflect: call of reflect.Value.NumField on a non-struct Value", val))

/-- The row loop of `bindSlice`: rows still to bind, the slice built so far. -/
def bindSliceLoop (env : Env) (typeObj : GoType) :
    List Row → List GoVal → Option GoErr × List GoVal
  | [], valueArrObj => (none, valueArrObj)
  | row :: rest, valueArrObj =>
    match bind env row typeObj (zero typeObj) true with
    | (none, newObj) => bindSliceLoop env typeObj rest (valueArrObj ++ [newObj])
    | (some err, _) => (some err, valueArrObj)

/-- Function `bindSlice`: `arr` the rows; then type, contents and settability
of `elem`.  Returns the outcome and the contents of `elem` afterwards. -/
def bindSlice (env : Env) (arr : List Row) (ty : GoType) (cur : GoVal)
    (canSet : Bool) : Res × GoVal :=
  if ¬ canSet then (.err .ErrTargetNotSettable, cur)
  else
    match ty with
    | .mk _ _ (.slice typeObj) =>
      match bindSliceLoop env typeObj arr [] with
      | (none, valueArrObj) => (.ok, .slice (some valueArrObj))
      | (some err, _) => (.err err, cur)
    | _ => (.fault "reflect.MakeSlice of non-slice type", cur)

/-- The row cursor `IfeRows`, as the script of its answers: what `Columns`
returns, and for every row that `Next` will announce what `Scan` does there,
fail or store these values in the slots handed to it. -/
structure Rows where
  columns : Except GoErr (List String)
  pending : List (Except GoErr (List Val))

/-- Effect of `rows.Scan(valuePtrs...)` on the slots `values`: the row's values
are stored positionally; a slot the row has no value for keeps its contents. -/
def storeSlots (values vs : List Val) : List Val :=
  (vs ++ values.drop vs.length).take values.length

/-- The value stored in the entry for a column: a `[]byte` becomes the string
with the same bytes (`zstring.Bytes2String`), anything else is kept. -/
def entryValue (val : Val) : Val :=
  match val with
  | none => none
  | some d => if d.ty = tBytes then some ⟨tString, .str d.val.asBytes⟩ else val

/-- The loop `for i, col := range columns` of `resolveDataFromRows`. -/
def fillEntry (values : List Val) : List String → Nat → Row → Row
  | [], _, entry => entry
  | col :: cols, i, entry =>
    fillEntry values cols (i + 1) (entry.put col (entryValue (values.getD i none)))

/-- The loop `for rows.Next()` of `resolveDataFromRows`: rows the cursor has
not announced yet, the slots, the result so far.  Returns the result, the
error, and the rows the cursor has still not announced. -/
def resolveLoop (columns : List String) :
    List (Except GoErr (List Val)) → List Val → List Row →
      List Row × Option GoErr × List (Except GoErr (List Val))
  | [], _, result => (result, none, [])
  | .error err :: rest, _, _ => ([], some err, rest)
  | .ok vs :: rest, values, result =>
    resolveLoop columns rest (storeSlots values vs)
      (result ++ [fillEntry (storeSlots values vs) columns 0 []])

/-- Function `resolveDataFromRows`, with the rows left unread in the cursor as
third component.  The empty list is the nil slice. -/
def resolveRun (rows : Option Rows) :
    List Row × Option GoErr × List (Except GoErr (List Val)) :=
  match rows with
  | none => ([], some .ErrNilRows, [])
  | some r =>
    match r.columns with
    | .error err => ([], some err, r.pending)
    | .ok columns =>
      resolveLoop columns r.pending (List.replicate columns.length none) []

/-- Function `resolveDataFromRows`. -/
def resolveDataFromRows (rows : Option Rows) : List Row × Option GoErr :=
  ((resolveRun rows).1, (resolveRun rows).2.1)

/-- Function `ScanToMap`. -/
def ScanToMap (rows : Option Rows) : List Row × Option GoErr :=
  resolveDataFromRows rows

/-- Function `Scan`.  Returns the outcome and `out` afterwards (the pointer
with the new contents of the variable it points to).  The second case is an
`out` that is a non-nil pointer; every other non-nil `out` is not of pointer
kind or is a nil pointer. -/
def Scan (env : Env) (rows : Option Rows) (out : Val) : Res × Val :=
  match out with
  | none => (.err .ErrTargetNotSettable, out)
  | some ⟨.mk n c (.ptr targetTy), .ptr (some target)⟩ =>
    match resolveDataFromRows rows with
    | (_, some err) => (.err err, out)
    | ([], none) => (.err .ErrEmptyResult, out)
    | (row :: data, none) =>
      if targetTy.kind = .Slice then
        match bindSlice env (row :: data) targetTy target true with
        | (r, v) => (r, some ⟨.mk n c (.ptr targetTy), .ptr (some v)⟩)
      else
        match bind env row targetTy target true with
        | (none, v) => (.ok, some ⟨.mk n c (.ptr targetTy), .ptr (some v)⟩)
        | (some err, v) => (.err err, some ⟨.mk n c (.ptr targetTy), .ptr (some v)⟩)
  | some _ => (.err .ErrTargetNotSettable, out)

/-! ## Concrete types, collaborators and cursors used in closed statements -/

/-- A stand-in for zstring.CamelCaseToSnakeCase: an underscore before every
upper-case letter but the first, letters lower-cased.  Every field of the
examples below carries an explicit tag, so no example depends on it. -/
def demoSnake (s : String) : String :=
  String.mk (s.data.enum.flatMap fun (i, c) =>
    if c.isUpper ∧ i ≠ 0 then ['_', c.toLower] else [c.toLower])

/-- Collaborators of the examples.  The `Scan` method of `sql.NullTime` accepts
every source and stores it with `Valid = true`; the `Scan` method of every other
scanner type rejects its source. -/
def demoEnv : Env where
  CamelCaseToSnakeCase := demoSnake
  timeFormat := fun _ => "2006-01-02 15:04:05"
  parseFloat := fun s => .error (.numError "ParseFloat" s false)
  widen := id
  narrow := id
  scan := fun t cur d =>
    if t.name = "sql.NullTime" then (.ok, .struct [d.val, .bool true])
    else (.err (.foreign "unsupported Scan source"), cur)
  unmarshalByte := fun _ cur _ => (.ok, cur)
  stack := "goroutine 1 [running]"

/-- The fields `ID int "zdb:\"id\""` and `Name string "zdb:\"name\""`. -/
def userFields : Fields :=
  .cons "ID" true (some "id") tInt (.cons "Name" true (some "name") tString .nil)

/-- The record `type User struct { ID int; Name string }` with these tags. -/
def tUser : GoType :=
  .mk "User" noCaps (.struct userFields)

/-- The type `[]User`. -/
def tUsers : GoType := .mk "" noCaps (.slice tUser)

/-- The field `ID int "zdb:\"id\""`. -/
def idOnlyFields : Fields :=
  .cons "ID" true (some "id") tInt .nil

/-- The record `type IdOnly struct { ID int }` with this tag. -/
def tIdOnly : GoType :=
  .mk "IdOnly" noCaps (.struct idOnlyFields)

/-- A string type with a `Scan` method on its pointer:
`type Email string; func (e *Email) Scan(src interface{}) error`. -/
def tEmail : GoType := .mk "Email" ⟨true, false, false⟩ (.atom .String)

/-- The type `sql.NullTime`: `struct { Time time.Time; Valid bool }`, whose
pointer implements `sql.Scanner`. -/
def tNullTime : GoType :=
  .mk "sql.NullTime" ⟨true, false, false⟩
    (.struct (.cons "Time" true none tTime (.cons "Valid" true none tBool .nil)))

/-- The type `time.Duration`, a defined type whose underlying type is int64. -/
def tDuration : GoType := .mk "time.Duration" noCaps (.atom .Int64)

/-- A pointer to a variable of type `t` holding `v`, as an `interface{}`. -/
def pointerTo (t : GoType) (v : GoVal) : Val :=
  some ⟨ptrTo t, .ptr (some v)⟩

/-! ## utils.go -/

/-- Collaborators of `utils.go` outside the repository. -/
structure NormEnv where
  /-- The function zreflect.GetStructTag, on the descriptor of a field. -/
  GetStructTag : StructField → String
  /-- The function zstring.IsLcfirst, on a field name. -/
  IsLcfirst : String → Bool

/-- The inner loop of `parseMaps` for the element `v` at index `i` (not the
first): the columns still to look up.  A column the element lacks ends the
whole call with the error naming `i` and that column. -/
def parseMapsRow (i : Nat) (v : Row) : List String → Except GoErr (List Val)
  | [] => .ok []
  | key :: cols =>
    match v.lookup key with
    | none =>
      .error (.adhoc ("invalid values[" ++ FormatInt i ++ "] for column: " ++ key))
    | some val =>
      match parseMapsRow i v cols with
      | .error e => .error e
      | .ok colArgs => .ok (val :: colArgs)

/-- The outer loop of `parseMaps` from index `i` on (`i > 0`): the column list
fixed by the first element, the elements still to read, the argument rows so
far. -/
def parseMapsLoop (cols : List String) :
    Nat → List Row → List (List Val) → List String × List (List Val) × Option GoErr
  | _, [], args => (cols, args, none)
  | i, v :: rest, args =>
    match parseMapsRow i v cols with
    | .error e => ([], [], some e)
    | .ok colArgs => parseMapsLoop cols (i + 1) rest (args ++ [colArgs])

/-- Function `parseMaps`.  The loop `for key := range v` visits the keys of the
first element in the order of its association list, so every order `range` may
choose is the order of some list.  The empty lists are the nil slices. -/
def parseMaps (val : List Row) : List String × List (List Val) × Option GoErr :=
  match val with
  | [] => ([], [], none)
  | v :: rest =>
    parseMapsLoop (v.map Prod.fst) 1 rest
      [(v.map Prod.fst).map fun key => (v.lookup key).getD none]

mutual
/-- Result of `reflect.Value.IsZero`. -/
def GoVal.isZero : GoVal → Bool
  | .bool b => !b
  | .int v => v == 0
  | .uint v => v == 0
  | .float x => x == 0
  | .str s => s == ""
  | .bytes _ => false
  | .ptr none => true
  | .ptr (some _) => false
  | .slice none => true
  | .slice (some _) => false
  | .struct fs => isZeroAll fs
  | .iface none => true
  | .iface (some _) => false
  | .other c => c == 0
/-- Whether every value of a list is zero. -/
def isZeroAll : List GoVal → Bool
  | [] => true
  | v :: vs => v.isZero && isZeroAll vs
end

/-- Result of `field.Interface()` for a field of type `ty` holding `v`: an
interface field gives what it holds, any other field its value with its
type. -/
def interfaceOf (ty : GoType) (v : GoVal) : Val :=
  if ty.kind = .Interface then
    match v with
    | .iface (some (t, x)) => some ⟨t, x⟩
    | _ => none
  else some ⟨ty, v⟩

/-- The error `errors.New("insert data is illegal")` of `parseStruct`. -/
def errIllegal : GoErr := .adhoc "insert data is illegal"

/-- Message of the panic of `reflect.Value.Interface` on an unexported field. -/
def interfaceFault : String :=
  "reflect.Value.Interface: cannot return value obtained from unexported field or method"

/-- The field loop of `parseStruct` on a struct: the fields still to visit and
their values.  Returns the outcome, the columns and the arguments of the fields
it keeps.  (A struct value holds one value per field.) -/
def parseStructFields (nenv : NormEnv) :
    List StructField → List GoVal → Res × List String × List Val
  | [], _ => (.ok, [], [])
  | _ :: _, [] => (.ok, [], [])
  | structField :: fs, field :: vs =>
    if field.isZero then parseStructFields nenv fs vs
    else if ¬ structField.exported then (.fault interfaceFault, [], [])
    else if nenv.IsLcfirst structField.name then parseStructFields nenv fs vs
    else
      match parseStructFields nenv fs vs with
      | (.ok, cols, colArgs) =>
        (.ok,
          (if nenv.GetStructTag structField ≠ "" then nenv.GetStructTag structField
            else structField.name) :: cols,
          interfaceOf structField.ty field :: colArgs)
      | (r, _, _) => (r, [], [])

mutual
/-- Function `parseStruct` on data of type `ty` holding the given value.  The
first argument tells whether `reflect.Indirect` is still to be applied (it is
at the start of every call, and follows one pointer).  Returns the outcome,
the columns and the argument rows. -/
def parseStructAt (nenv : NormEnv) :
    Bool → GoType → GoVal → Res × List String × List (List Val)
  | true, .mk _ _ (.ptr et), .ptr (some v) => parseStructAt nenv false et v
  | _, .mk _ _ (.struct fs), .struct vals =>
    match parseStructFields nenv fs.toList vals with
    | (.ok, cols, colArgs) => (.ok, cols, [colArgs])
    | (r, _, _) => (r, [], [])
  | _, .mk _ _ (.slice et), .slice (some xs) => parseStructElems nenv et xs
  | _, .mk _ _ (.slice _), .slice none => (.ok, [], [])
  | _, .mk _ _ (.slice _), .bytes s =>
    if s = "" then (.ok, [], []) else (.err errIllegal, [], [])
  | _, _, _ => (.err errIllegal, [], [])
/-- The loop of `parseStruct` over the elements of a slice with element type
`et`: each element is passed to `parseStruct` as `Index(i).Interface()`; the
columns are those of the first element, the argument rows are the first row of
every element. -/
def parseStructElems (nenv : NormEnv) :
    GoType → List GoVal → Res × List String × List (List Val)
  | _, [] => (.ok, [], [])
  | et, x :: xs =>
    match
      ((match x with
        | .iface (some (t, y)) =>
          if et.kind = Kind.Interface then parseStructAt nenv true t y
          else (Res.err errIllegal, [], [])
        | .iface none => (Res.err errIllegal, [], [])
        | x => parseStructAt nenv true et x) : Res × List String × List (List Val)) with
    | (.ok, col, arg) =>
      match arg with
      | [] => (.fault "runtime error: index out of range [0] with length 0", [], [])
      | arg0 :: _ =>
        match parseStructElems nenv et xs with
        | (.ok, _, args) => (.ok, col, arg0 :: args)
        | (r, _, _) => (r, [], [])
    | (r, _, _) => (r, [], [])
end

/-- Function `parseStruct`. -/
def parseStruct (nenv : NormEnv) (data : Val) : Res × List String × List (List Val) :=
  match data with
  | none => (.err errIllegal, [], [])
  | some d => parseStructAt nenv true d.ty d.val

/-! ## The insert builder

Package `builder` and the driver dialects are not among the sources (only
`builder/insert_test.go` is); the definitions of this section follow sections
3, 4.1 and 4.3 of the specification, and the texts asserted by the tests. -/

/-- Modelled from the spec: the Dialect of section 4.1 (package builder and
the driver packages that implement it are absent): a name, the mark that
quotes an identifier, and whether placeholders are positionally numbered
rather than a fixed token. -/
structure Dialect where
  name : String
  quoteMark : String
  numbered : Bool

/-- Modelled from the spec: `Quote(identifier)` of the absent Dialect, the
identifier between two quote marks. -/
def Dialect.Quote (d : Dialect) (identifier : String) : String :=
  d.quoteMark ++ identifier ++ d.quoteMark

/-- Modelled from the spec: `Placeholder(positionIndex)` of the absent
Dialect: `$N` for a numbered dialect, the fixed token `?` otherwise. -/
def Dialect.Placeholder (d : Dialect) (positionIndex : Nat) : String :=
  if d.numbered then "$" ++ Nat.repr positionIndex else "?"

/-- Modelled from the spec: the absent mysql dialect, backtick quoting with
fixed `?` placeholders. -/
def mysqlDialect : Dialect := ⟨"mysql", "`", false⟩

/-- Modelled from the spec: the absent postgres dialect, double-quote quoting
with numbered `$N` placeholders. -/
def postgresDialect : Dialect := ⟨"postgres", "\"", true⟩

/-- Modelled from the spec: an argument of the absent builder, either a raw
expression (`builder.Raw`, literal SQL text) or a value to parameterize. -/
inductive Arg where
  | raw (sql : String)
  | value (v : Val)

/-- Modelled from the spec: the statement mode of the absent builder. -/
inductive Mode where
  | insert
  | replace
  deriving DecidableEq, Repr

/-- Modelled from the spec: the leading keyword of a mode of the absent
builder. -/
def Mode.keyword : Mode → String
  | .insert => "INSERT"
  | .replace => "REPLACE"

/-- Modelled from the spec: the failures NoData and ArgCountMismatch of the
absent builder. -/
inductive BuildErr where
  | NoData
  | ArgCountMismatch
  deriving DecidableEq, Repr

/-- Modelled from the spec: the state of the absent insert builder of section
4.3: table name, mode, dialect, column list, argument rows in append order,
trailing raw clauses. -/
structure InsertBuilder where
  table : String
  mode : Mode
  dialect : Dialect
  cols : List String
  rows : List (List Arg)
  options : List String

/-- Modelled from the spec: `builder.Insert(table)` of the absent package,
with the dialect that `SetDriver` installs. -/
def Insert (table : String) (d : Dialect) : InsertBuilder :=
  ⟨table, .insert, d, [], [], []⟩

/-- Modelled from the spec: `builder.Replace(table)` of the absent package,
with the dialect that `SetDriver` installs. -/
def Replace (table : String) (d : Dialect) : InsertBuilder :=
  ⟨table, .replace, d, [], [], []⟩

/-- Modelled from the spec: `Cols(names...)` of the absent builder extends the
column list. -/
def InsertBuilder.Cols (b : InsertBuilder) (names : List String) : InsertBuilder :=
  { b with cols := b.cols ++ names }

/-- Modelled from the spec: `Values(args...)` of the absent builder appends
one row when the argument count equals the current column count, and fails
with ArgCountMismatch otherwise. -/
def InsertBuilder.Values (b : InsertBuilder) (args : List Arg) :
    Except BuildErr InsertBuilder :=
  if args.length = b.cols.length then .ok { b with rows := b.rows ++ [args] }
  else .error .ArgCountMismatch

/-- Modelled from the spec: `Option(clause)` of the absent builder appends a
raw trailing clause. -/
def InsertBuilder.Option (b : InsertBuilder) (clause : String) : InsertBuilder :=
  { b with options := b.options ++ [clause] }

/-- Modelled from the spec: what the absent `Build` writes at one argument
position: literal text, or the parameter placeholder with a position index. -/
inductive Piece where
  | lit (s : String)
  | ph (index : Nat)
  deriving DecidableEq, Repr

/-- Modelled from the spec: the text of a piece under a dialect (absent
builder). -/
def Piece.render (d : Dialect) : Piece → String
  | .lit s => s
  | .ph i => d.Placeholder i

/-- Modelled from the spec: the values of a row of the absent builder that
become arguments, raw expressions left out. -/
def rowValues : List Arg → List Val
  | [] => []
  | .raw _ :: as => rowValues as
  | .value v :: as => v :: rowValues as

/-- Modelled from the spec: the pieces of one row of the absent builder, `n`
placeholders having been issued before it: a raw expression is spliced
verbatim and takes no position index, a value takes the next one. -/
def rowPieces : Nat → List Arg → List Piece
  | _, [] => []
  | n, .raw s :: as => .lit s :: rowPieces n as
  | n, .value _ :: as => .ph (n + 1) :: rowPieces (n + 1) as

/-- Modelled from the spec: the pieces of the rows of the absent builder, in
append order. -/
def rowsPieces : Nat → List (List Arg) → List (List Piece)
  | _, [] => []
  | n, r :: rs => rowPieces n r :: rowsPieces (n + (rowValues r).length) rs

/-- Modelled from the spec: the arguments returned by the absent `Build`, the
values of all rows flattened row-major. -/
def rowsValues : List (List Arg) → List Val
  | [] => []
  | r :: rs => rowValues r ++ rowsValues rs

/-- Modelled from the spec: texts joined with `", "` (absent builder). -/
def commaJoin : List String → String
  | [] => ""
  | [s] => s
  | s :: t :: rest => s ++ ", " ++ commaJoin (t :: rest)

/-- Modelled from the spec: one parenthesised group of the VALUES list of the
absent `Build`. -/
def renderRow (d : Dialect) (ps : List Piece) : String :=
  "(" ++ commaJoin (ps.map (Piece.render d)) ++ ")"

/-- Modelled from the spec: the trailing clauses of the absent `Build`, each
after a blank. -/
def renderOptions : List String → String
  | [] => ""
  | o :: os => " " ++ o ++ renderOptions os

/-- Modelled from the spec: the position indices of the parameter placeholders
that the absent `Build` writes, in text order. -/
def placeholderIndices : List Piece → List Nat
  | [] => []
  | .lit _ :: ps => placeholderIndices ps
  | .ph i :: ps => i :: placeholderIndices ps

/-- Modelled from the spec: the pieces of the whole VALUES list of the absent
`Build`, in text order. -/
def InsertBuilder.pieces (b : InsertBuilder) : List Piece :=
  (rowsPieces 0 b.rows).flatten

/-- Modelled from the spec: `Build()` of the absent builder: NoData without a
row, else the text
`<MODE> INTO <quoted table> (<quoted col>, ...) VALUES (<row>), ... <option>`
and the arguments. -/
def InsertBuilder.Build (b : InsertBuilder) : Except BuildErr (String × List Val) :=
  match b.rows with
  | [] => .error .NoData
  | r :: rs =>
    .ok (b.mode.keyword ++ " INTO " ++ b.dialect.Quote b.table ++ " ("
          ++ commaJoin (b.cols.map b.dialect.Quote) ++ ") VALUES "
          ++ commaJoin ((rowsPieces 0 (r :: rs)).map (renderRow b.dialect))
          ++ renderOptions b.options,
        rowsValues (r :: rs))

/-- Modelled from the spec: `Safety()` of the absent builder, a no-op for
INSERT and REPLACE. -/
def InsertBuilder.Safety (_b : InsertBuilder) : Except BuildErr Unit := .ok ()

/-! ## Concrete records, helpers and builders used in closed statements -/

/-- Helpers of the examples.  `GetStructTag` answers with the override recorded
in the descriptor of the field, and with the empty string for a field without
one; `IsLcfirst` tells whether the first byte is a lower-case ASCII letter. -/
def demoNorm : NormEnv where
  GetStructTag := fun f =>
    match f.tag with
    | some t => t
    | none => ""
  IsLcfirst := fun s =>
    match s.data with
    | c :: _ => decide ('a' ≤ c ∧ c ≤ 'z')
    | [] => false

/-- The fields `UserName string` (no override), `Age int` (override `age`)
and the unexported `secret int`. -/
def acctFields : Fields :=
  .cons "UserName" true none tString
    (.cons "Age" true (some "age") tInt (.cons "secret" false none tInt .nil))

/-- The record `type Acct struct { UserName string; Age int; secret int }`. -/
def tAcct : GoType := .mk "Acct" noCaps (.struct acctFields)

/-- The type `[]Acct`. -/
def tAccts : GoType := .mk "" noCaps (.slice tAcct)

/-- The `interface{}` holding the int `n`. -/
def Val.int (n : Int) : Val := some ⟨tInt, .int n⟩

/-- Modelled from the spec: the builder of the first case of `TestInsert`
(postgres dialect, columns `username` and `age`, one row). -/
def demoInsertNumbered : InsertBuilder :=
  { (Insert "user" postgresDialect).Cols ["username", "age"] with
    rows := [[.value (Val.str "new user"), .value (Val.int 18)]] }

/-- Modelled from the spec: the builder of the second case of `TestInsert`
(mysql dialect, a raw expression for the third column, one trailing clause). -/
def demoInsertRaw : InsertBuilder :=
  { ((Insert "user" mysqlDialect).Cols ["username", "age", "create_at"]).Option
      "ON DUPLICATE KEY UPDATE age = VALUES(age)" with
    rows := [[.value (Val.str "new user"), .value (Val.int 18),
      .raw "UNIX_TIMESTAMP(NOW())"]] }

/-- Modelled from the spec: the builder of `TestBatchInsert` (mysql dialect,
two rows) in the given mode. -/
def demoBatch (mode : Mode) : InsertBuilder :=
  { table := "user", mode := mode, dialect := mysqlDialect,
    cols := ["username", "age"],
    rows := [[.value (Val.str "new user"), .value (Val.int 18)],
      [.value (Val.str "new user2"), .value (Val.int 199)]],
    options := [] }

/-- Modelled from the spec: the character with which every parameter
placeholder of a dialect of the absent builder begins, `$` for a numbered
dialect and `?` for the fixed token. -/
def Dialect.mark (d : Dialect) : Char :=
  if d.numbered then '$' else '?'

/-- Number of occurrences of a character in a text. -/
def occurrences (c : Char) (s : String) : Nat :=
  s.data.count c

/-! ## Auxiliary facts -/

theorem kind_eq_of_shape_eq {v t : GoType} (h : v.shape = t.shape) :
    v.kind = t.kind := by
  unfold GoType.kind; rw [h]

theorem assignableTo_eq_false {v t : GoType} (hk : v.kind ≠ t.kind)
    (hi : t.kind ≠ .Interface) : assignableTo v t = false := by
  unfold assignableTo
  have h1 : (v == t) = false := by
    apply beq_false_of_ne
    intro h; exact hk (by rw [h])
  have h2 : (v.shape == t.shape) = false := by
    apply beq_false_of_ne
    intro h; exact hk (kind_eq_of_shape_eq h)
  have h3 : (t.kind == Kind.Interface) = false := beq_false_of_ne hi
  simp [h1, h2, h3]

/-! ## C1: zero rows -/

/-- C1 (the code at the failing input, and at every other destination): when
the cursor lists its columns and yields zero rows, `Scan` into any non-nil
pointer, a pointer to a slice included, returns `ErrEmptyResult` and leaves the
destination as it was. -/
theorem Scan_zero_rows_ErrEmptyResult (env : Env) (columns : List String)
    (n : String) (c : Caps) (targetTy : GoType) (target : GoVal) :
    Scan env (some ⟨.ok columns, []⟩)
        (some ⟨.mk n c (.ptr targetTy), .ptr (some target)⟩)
      = (.err .ErrEmptyResult,
          some ⟨.mk n c (.ptr targetTy), .ptr (some target)⟩) := by
  simp [Scan, resolveDataFromRows, resolveRun, resolveLoop]

/-! ## C2: a byte-sequence column reaches `convert` as a string -/

/-- C2 (the code at the failing input, for every payload `s`): (1) a row whose
column `id` holds the byte sequence `s`, scanned into a record whose field
`ID int` is bound to that column, ends with `ErrConversionFailed` and the field
still zero: the entry built by `resolveDataFromRows` holds a string, and
`convert` has no rule from a string source to an integer field; (2) `convert`
itself, given the byte sequence "42" and an `int` destination, parses it and
stores 42; (3) a byte-sequence column bound to a `string` field does arrive,
as the string with the same bytes. -/
theorem Scan_bytes_column_into_int_field (env : Env) (s : String) :
    Scan env (some ⟨.ok ["id"], [.ok [Val.bytes s]]⟩) (pointerTo tIdOnly (zero tIdOnly))
        = (.err .ErrConversionFailed, pointerTo tIdOnly (.struct [.int 0]))
      ∧ convert env (Val.bytes "42") tInt (.int 0) = (.ok, .int 42)
      ∧ Scan env (some ⟨.ok ["name"], [.ok [Val.bytes s]]⟩) (pointerTo tUser (zero tUser))
        = (.ok, pointerTo tUser (.struct [.int 0, .str s])) := by
  refine ⟨rfl, rfl, rfl⟩

/-! ## C3: int64 source, boolean destination -/

/-- C3 counterexample: the int64 value -1 is nonzero, yet `convert` stores
`false` in a plain `bool` destination (and reports success). -/
theorem convert_minus_one_into_bool :
    convert demoEnv (Val.int64 (-1)) tBool (.bool true) = (.ok, .bool false)
      ∧ (-1 : Int) ≠ 0 := by
  constructor
  · rfl
  · decide

/-- C3 as amended: for every int64 value `v` and every destination of boolean
kind whose pointer does not implement `sql.Scanner`, `convert` succeeds and
stores `true` exactly when `v > 0`; zero and every negative value give
`false`. -/
theorem convert_int64_into_bool (env : Env) (v : Int) (vit : GoType) (cur : GoVal)
    (hk : vit.kind = .Bool) (hs : vit.caps.scanAddr = false) :
    convert env (Val.int64 v) vit cur = (.ok, .bool (decide (v > 0))) := by
  have ha : assignableTo tInt64 vit = false :=
    assignableTo_eq_false (by rw [hk]; decide) (by rw [hk]; decide)
  have ht : tInt64 ≠ tTime := by decide
  simp only [convert, Val.int64, ha, ht, hs, hk]
  simp [tInt64, GoType.kind, GoType.shape, Shape.kind, isIntSeriesType,
    isUintSeriesType, Kind.code, asInt64]
  split <;> simp_all

/-- C3 witness: the amended statement at the values 5 and -5 and the type
`bool`. -/
theorem convert_int64_into_bool_witness :
    tBool.kind = .Bool ∧ tBool.caps.scanAddr = false
      ∧ convert demoEnv (Val.int64 5) tBool (.bool false) = (.ok, .bool true)
      ∧ convert demoEnv (Val.int64 (-5)) tBool (.bool true) = (.ok, .bool false) :=
  ⟨rfl, rfl, convert_int64_into_bool demoEnv 5 tBool (.bool false) rfl rfl,
    convert_int64_into_bool demoEnv (-5) tBool (.bool true) rfl rfl⟩

/-! ## C4: int64 source, floating and string destinations -/

/-- C4 counterexample: `Email` is of string kind and its pointer implements
`sql.Scanner`; binding the int64 value 7 into it calls the `Scan` method, which
here rejects the value, so the bind fails and the field does not become
"7". -/
theorem convert_int64_into_scanner_string :
    tEmail.kind = .String
      ∧ convert demoEnv (Val.int64 7) tEmail (.str "")
          = (.err (.foreign "unsupported Scan source"), .str "") := by
  constructor <;> rfl

/-- C4 as amended: for every int64 value `v` and every destination whose
pointer does not implement `sql.Scanner`: when the destination is of a
floating kind `convert` fails with `ErrConversionFailed` and leaves it
unchanged; when it is of string kind `convert` succeeds and stores the base-10
text of `v`. -/
theorem convert_int64_into_float_or_string (env : Env) (v : Int) (vit : GoType)
    (cur : GoVal) (hs : vit.caps.scanAddr = false)
    (hk : isFloatSeriesType vit.kind = true ∨ vit.kind = .String) :
    convert env (Val.int64 v) vit cur
      = if vit.kind = .String then (.ok, .str (FormatInt v))
        else (.err .ErrConversionFailed, cur) := by
  have ht : tInt64 ≠ tTime := by decide
  have hk' : vit.kind = .Float32 ∨ vit.kind = .Float64 ∨ vit.kind = .String := by
    rcases hk with h | h
    · simp [isFloatSeriesType] at h
      rcases h with h | h
      · exact Or.inl h
      · exact Or.inr (Or.inl h)
    · exact Or.inr (Or.inr h)
  rcases hk' with h | h | h
  all_goals
    have ha : assignableTo tInt64 vit = false :=
      assignableTo_eq_false (by rw [h]; decide) (by rw [h]; decide)
    simp only [convert, Val.int64, ha, ht, hs, h]
    simp [tInt64, GoType.kind, GoType.shape, Shape.kind, isIntSeriesType,
      isUintSeriesType, Kind.code, asInt64]

/-- C4 witness: the amended statement at the value 18 with the destination
types `float64`, `float32` and `string`. -/
theorem convert_int64_into_float_or_string_witness :
    convert demoEnv (Val.int64 18) tFloat64 (.float 0)
        = (.err .ErrConversionFailed, .float 0)
      ∧ convert demoEnv (Val.int64 18) tFloat32 (.float 0)
        = (.err .ErrConversionFailed, .float 0)
      ∧ convert demoEnv (Val.int64 (-18)) tString (.str "")
        = (.ok, .str "-18") :=
  ⟨convert_int64_into_float_or_string demoEnv 18 tFloat64 (.float 0) rfl (Or.inl rfl),
    convert_int64_into_float_or_string demoEnv 18 tFloat32 (.float 0) rfl (Or.inl rfl),
    convert_int64_into_float_or_string demoEnv (-18) tString (.str "") rfl (Or.inr rfl)⟩

/-! ## Auxiliary facts about the field loop of `bind` -/

theorem bindFields_skip (env : Env) (result : Row) (f : StructField)
    (hm : result.lookup (columnOf env f) = none
      ∨ result.lookup (columnOf env f) = some none)
    (rest : List StructField) (i : Nat) (vals : List GoVal) :
    bindFields env result (f :: rest) i vals = bindFields env result rest (i + 1) vals := by
  rw [bindFields]
  rcases hm with h | h <;> simp [h]

theorem bindFields_frame (env : Env) (result : Row) :
    ∀ (fl : List StructField) (i : Nat) (vals : List GoVal) (j : Nat),
      (j < i ∨ ∃ f, fl[j - i]? = some f ∧
        (result.lookup (columnOf env f) = none
          ∨ result.lookup (columnOf env f) = some none)) →
      ((bindFields env result fl i vals).2)[j]? = vals[j]? := by
  intro fl
  induction fl with
  | nil => intro i vals j _; simp [bindFields]
  | cons f0 rest ih =>
    intro i vals j h
    -- the hypothesis for the remaining fields, whenever `j` is not the current index
    have hnext : j ≠ i → (j < i + 1 ∨ ∃ f, rest[j - (i + 1)]? = some f ∧
        (result.lookup (columnOf env f) = none
          ∨ result.lookup (columnOf env f) = some none)) := by
      intro hji
      rcases h with h | ⟨f, hf, hm⟩
      · exact Or.inl (by omega)
      · by_cases hlt : j < i
        · exact Or.inl (by omega)
        · right
          have : j - i = (j - (i + 1)) + 1 := by omega
          rw [this, List.getElem?_cons_succ] at hf
          exact ⟨f, hf, hm⟩
    by_cases hji : j = i
    · -- the current field is the one in question (or already passed)
      subst hji
      rcases h with h | ⟨f, hf, hm⟩
      · omega
      · simp at hf
        subst hf
        rw [bindFields_skip env result f0 hm]
        exact ih (j + 1) vals j (Or.inl (by omega))
    · have hset : ∀ x : GoVal, (vals.set i x)[j]? = vals[j]? := by
        intro x
        simp [List.getElem?_set, Ne.symm hji]
      rw [bindFields]
      split
      · exact ih (i + 1) vals j (hnext hji)
      · split
        · exact ih (i + 1) vals j (hnext hji)
        · exact ih (i + 1) vals j (hnext hji)
        · split
          · split
            · rfl
            · split
              · rw [ih (i + 1) _ j (hnext hji)]; exact hset _
              · exact hset _
          · split
            · rw [ih (i + 1) _ j (hnext hji)]; exact hset _
            · exact hset _
theorem bindFields_congr (env : Env) (result result' : Row) :
    ∀ (fl : List StructField) (i : Nat) (vals : List GoVal),
      (∀ g ∈ fl, result'.lookup (columnOf env g) = result.lookup (columnOf env g)) →
      bindFields env result' fl i vals = bindFields env result fl i vals := by
  intro fl
  induction fl with
  | nil => intro i vals _; simp [bindFields]
  | cons f0 rest ih =>
    intro i vals h
    have h0 := h f0 (List.mem_cons_self _ _)
    have ih' := fun i vals => ih i vals (fun g hg => h g (List.mem_cons_of_mem _ hg))
    simp only [bindFields, h0, ih']

/-! ## C5: fields without a value in the row -/

/-- C5: let `f` be the `j`-th field of a record type and let the row hold no
entry, or a null entry, under the column name `bind` resolves for `f`.  Then
(1) the field loop passes over `f` without any effect or error: continuing
from `f` is continuing from the field after it; (2) after `bind` on a settable
record the `j`-th field holds what it held before, whatever its type and
whatever happens at the other fields; (3) `bind` reads the row only under the
column names of the fields: a row that agrees with this one under those names
gives the same error and the same record, so columns matching no field are
ignored. -/
theorem bind_record_frame (env : Env) (result : Row) (n : String) (c : Caps)
    (fs : Fields) (vals : List GoVal) (j : Nat) (f : StructField)
    (hf : fs.toList[j]? = some f)
    (hm : result.lookup (columnOf env f) = none
      ∨ result.lookup (columnOf env f) = some none) :
    (∀ (rest : List StructField) (i : Nat) (vs : List GoVal),
        bindFields env result (f :: rest) i vs = bindFields env result rest (i + 1) vs)
      ∧ ((bind env result (.mk n c (.struct fs)) (.struct vals) true).2.fields)[j]?
          = vals[j]?
      ∧ (∀ result' : Row,
          (∀ g ∈ fs.toList,
            result'.lookup (columnOf env g) = result.lookup (columnOf env g)) →
          bind env result' (.mk n c (.struct fs)) (.struct vals) true
            = bind env result (.mk n c (.struct fs)) (.struct vals) true) := by
  refine ⟨bindFields_skip env result f hm, ?_, ?_⟩
  · have h := bindFields_frame env result fs.toList 0 vals j
      (Or.inr ⟨f, by simpa using hf, hm⟩)
    simp only [bind, recoverFault, GoVal.fields]
    generalize bindFields env result fs.toList 0 vals = r at h
    obtain ⟨r1, r2⟩ := r
    cases r1 <;> simpa [GoVal.fields] using h
  · intro result' h
    simp only [bind, GoVal.fields, bindFields_congr env result result' fs.toList 0 vals h]

/-- C5 witness: the record `User` holding `{1, "old"}`, bound to a row with
`id = 7`, a null `name` and a column `extra` that matches no field: the field
`Name` keeps "old". -/
theorem bind_record_frame_witness :
    userFields.toList[1]? = some ⟨"Name", true, some "name", tString⟩
      ∧ List.lookup (columnOf demoEnv ⟨"Name", true, some "name", tString⟩)
          [("id", Val.int64 7), ("name", none), ("extra", Val.str "x")] = some none
      ∧ ((bind demoEnv [("id", Val.int64 7), ("name", none), ("extra", Val.str "x")]
            tUser (.struct [.int 1, .str "old"]) true).2.fields)[1]?
          = [GoVal.int 1, GoVal.str "old"][1]? :=
  ⟨rfl, rfl,
    (bind_record_frame demoEnv [("id", Val.int64 7), ("name", none), ("extra", Val.str "x")]
      "User" noCaps userFields [.int 1, .str "old"] 1 ⟨"Name", true, some "name", tString⟩
      rfl (Or.inr rfl)).2.1⟩

/-! ## Auxiliary fact about slice types -/

theorem shape_of_kind_slice {t : GoType} (h : t.kind = .Slice) :
    ∃ n c e, t = .mk n c (.slice e) := by
  cases t with
  | mk n c s =>
    cases s with
    | atom k => cases k <;> simp [GoType.kind, GoType.shape, Shape.kind] at h
    | slice e => exact ⟨n, c, e, rfl⟩
    | ptr e => simp [GoType.kind, GoType.shape, Shape.kind] at h
    | struct fs => simp [GoType.kind, GoType.shape, Shape.kind] at h
    | iface => simp [GoType.kind, GoType.shape, Shape.kind] at h

/-! ## C6: destinations that implement `sql.Scanner` -/

/-- C6 counterexample: `sql.NullTime` implements `sql.Scanner` and its `Scan`
accepts a `time.Time`, yet `convert` with a `time.Time` source never calls it:
the source goes to `handleConvertTime`, which fails with "convert time failed"
because `sql.NullTime` is not convertible to `time.Time`. -/
theorem convert_time_into_NullTime :
    tNullTime.caps.scanAddr = true
      ∧ convert demoEnv (Val.time 1 2) tNullTime (zero tNullTime)
          = (.err (.adhoc "convert time failed"), zero tNullTime)
      ∧ demoEnv.scan tNullTime (zero tNullTime)
            ⟨tTime, .struct [.uint 1, .int 2, .ptr none]⟩
          = (.ok, .struct [.struct [.uint 1, .int 2, .ptr none], .bool true]) := by
  refine ⟨rfl, rfl, rfl⟩

/-- C6 as amended: for a destination whose pointer implements `sql.Scanner`
and a non-null source `d`, `convert` never consults the conversion matrix: a
source whose type is assignable to the destination is stored directly; any
other source that is a `time.Time` is handled by `handleConvertTime`; every
remaining source is handed unmodified to the `Scan` method, whose result is
returned as it is. -/
theorem convert_scanner_destination (env : Env) (d : Dyn) (vit : GoType)
    (cur : GoVal) (hs : vit.caps.scanAddr = true) :
    convert env (some d) vit cur
      = if assignableTo d.ty vit then (.ok, setValue vit d)
        else if d.ty = tTime then handleConvertTime env d.val d.ty vit cur
        else env.scan vit cur d := by
  simp only [convert, hs, if_true]

/-- C6 witness: the int64 value 9 and a string, bound into `sql.NullTime` and
`Email`, come back as their `Scan` methods answer. -/
theorem convert_scanner_destination_witness :
    tNullTime.caps.scanAddr = true ∧ tEmail.caps.scanAddr = true
      ∧ convert demoEnv (Val.int64 9) tNullTime (zero tNullTime)
          = (.ok, .struct [.int 9, .bool true])
      ∧ convert demoEnv (some ⟨tBytes, .bytes "a@b"⟩) tEmail (.str "")
          = (.err (.foreign "unsupported Scan source"), .str "") :=
  ⟨rfl, rfl, convert_scanner_destination demoEnv ⟨tInt64, .int 9⟩ tNullTime _ rfl,
    convert_scanner_destination demoEnv ⟨tBytes, .bytes "a@b"⟩ tEmail _ rfl⟩

/-! ## C7: faults raised during `bind` -/

/-- C7 counterexample: `bind` on a settable `int` destination panics in
`NumField`; the recovered error is the message built by `fmt.Errorf`, which is
not `ErrConversionFailed`. -/
theorem bind_int_destination :
    bind demoEnv [("id", Val.int64 7)] tInt (.int 0) true
        = (some (.adhoc ("error:[reflect: call of reflect.Value.NumField on a "
              ++ "non-struct Value], stack:[goroutine 1 [running]]")), .int 0)
      ∧ (bind demoEnv [("id", Val.int64 7)] tInt (.int 0) true).1
          ≠ some .ErrConversionFailed := by
  constructor
  · rfl
  · decide

/-- C7 as amended: (1) on a settable destination that is neither a record nor
a pointer `bind` returns normally, with the error "error:[fault], stack:[stack]"
built from the recovered fault and the stack, and the destination unchanged;
(2) when the field loop of a record faults with message `m`, `bind` returns
normally with the error "error:[m], stack:[stack]" and the record as the loop
left it; (3) such an error is never `ErrConversionFailed`; (4) `Scan` never
ends in a fault. -/
theorem bind_recovers_faults (env : Env) (result : Row) :
    (∀ (ty : GoType) (val : GoVal), ty.kind ≠ .Ptr → ty.kind ≠ .Struct →
        bind env result ty val true
          = (some (.adhoc ("error:[reflect: call of reflect.Value.NumField on a "
                ++ "non-struct Value], stack:[" ++ env.stack ++ "]")), val))
      ∧ (∀ (n : String) (c : Caps) (fs : Fields) (vals vals' : List GoVal) (m : String),
          bindFields env result fs.toList 0 vals = (.fault m, vals') →
          bind env result (.mk n c (.struct fs)) (.struct vals) true
            = (some (.adhoc ("error:[" ++ m ++ "], stack:[" ++ env.stack ++ "]")),
                .struct vals'))
      ∧ (∀ m : String,
          GoErr.adhoc ("error:[" ++ m ++ "], stack:[" ++ env.stack ++ "]")
            ≠ .ErrConversionFailed)
      ∧ (∀ (rows : Option Rows) (out : Val) (m : String),
          (Scan env rows out).1 ≠ .fault m) := by
  refine ⟨?_, ?_, ?_, ?_⟩
  · intro ty val hp hs
    cases ty with
    | mk n c s =>
      cases s with
      | ptr e => simp [GoType.kind, GoType.shape, Shape.kind] at hp
      | struct fs => simp [GoType.kind, GoType.shape, Shape.kind] at hs
      | atom k => simp [bind, recoverFault]
      | slice e => simp [bind, recoverFault]
      | iface => simp [bind, recoverFault]
  · intro n c fs vals vals' m h
    simp [bind, recoverFault, GoVal.fields, h]
  · intro m h
    cases h
  · intro rows out m
    unfold Scan
    split
    · simp
    · split
      · simp
      · simp
      · split
        · rename_i hk
          obtain ⟨n', c', e, rfl⟩ := shape_of_kind_slice hk
          simp only [bindSlice]
          split
          · simp
          · split <;> simp
        · split <;> simp
    · simp

/-- C7 witness: a `time.Duration` source bound to an `int` field makes the
assertion `out.(int64)` panic inside the field loop; `bind` returns the
formatted error. -/
theorem bind_recovers_faults_witness :
    bindFields demoEnv [("id", some ⟨tDuration, .int 5⟩)] idOnlyFields.toList 0 [.int 0]
        = (.fault assertFault, [.int 0])
      ∧ bind demoEnv [("id", some ⟨tDuration, .int 5⟩)] tIdOnly (.struct [.int 0]) true
        = (some (.adhoc ("error:[" ++ assertFault ++ "], stack:[" ++ demoEnv.stack ++ "]")),
            .struct [.int 0]) :=
  ⟨rfl, (bind_recovers_faults demoEnv [("id", some ⟨tDuration, .int 5⟩)]).2.1
    "IdOnly" noCaps idOnlyFields [.int 0] [.int 0] assertFault rfl⟩

/-! ## Auxiliary facts about `resolveDataFromRows` and `bindSlice` -/

theorem Row.put_of_not_mem (entry : Row) (k : String) (v : Val)
    (h : ∀ e ∈ entry, e.1 ≠ k) : Row.put entry k v = entry ++ [(k, v)] := by
  induction entry with
  | nil => rfl
  | cons e es ih =>
    obtain ⟨k', v'⟩ := e
    have hk : k' ≠ k := h (k', v') (List.mem_cons_self _ _)
    simp only [Row.put, hk, if_false, List.cons_append]
    rw [ih (fun e he => h e (List.mem_cons_of_mem _ he))]

theorem fillEntry_eq (values : List Val) :
    ∀ (cols : List String) (i : Nat) (entry : Row), cols.Nodup →
      (∀ c ∈ cols, ∀ e ∈ entry, e.1 ≠ c) → i + cols.length ≤ values.length →
      fillEntry values cols i entry
        = entry ++ cols.zip ((values.drop i).map entryValue) := by
  intro cols
  induction cols with
  | nil => intro i entry _ _ _; simp [fillEntry]
  | cons c cs ih =>
    intro i entry hnd hdis hlen
    simp only [List.length_cons] at hlen
    have hi : i < values.length := by omega
    have hdrop : values.drop i = values[i] :: values.drop (i + 1) :=
      List.drop_eq_getElem_cons hi
    have hget : values.getD i none = values[i] := by
      simp [List.getD, List.getElem?_eq_getElem hi]
    rw [List.nodup_cons] at hnd
    rw [fillEntry, Row.put_of_not_mem entry c _ (hdis c (List.mem_cons_self _ _)), ih]
    · rw [hdrop, hget, List.map_cons, List.zip_cons_cons, List.append_assoc]
      rfl
    · exact hnd.2
    · intro c' hc' e he
      rw [List.mem_append] at he
      rcases he with he | he
      · exact hdis c' (List.mem_cons_of_mem _ hc') e he
      · simp at he
        subst he
        intro heq
        have hcc : c = c' := heq
        exact hnd.1 (hcc ▸ hc')
    · omega

theorem storeSlots_full (values vs : List Val) (h : vs.length = values.length) :
    storeSlots values vs = vs := by
  unfold storeSlots
  rw [h, List.drop_length, List.append_nil, ← h, List.take_length]

theorem resolveLoop_ok (columns : List String) (hnd : columns.Nodup) :
    ∀ (rs : List (List Val)) (values : List Val) (result : List Row),
      values.length = columns.length → (∀ r ∈ rs, r.length = columns.length) →
      resolveLoop columns (rs.map .ok) values result
        = (result ++ rs.map (fun r => columns.zip (r.map entryValue)), none, []) := by
  intro rs
  induction rs with
  | nil => intro values result _ _; simp [resolveLoop]
  | cons r rs ih =>
    intro values result hv hl
    have hr : r.length = columns.length := hl r (List.mem_cons_self _ _)
    simp only [List.map_cons, resolveLoop]
    rw [storeSlots_full values r (by omega), ih r _ hr
      (fun r' hr' => hl r' (List.mem_cons_of_mem _ hr'))]
    rw [fillEntry_eq r columns 0 [] hnd (by simp) (by omega)]
    simp

theorem lookup_zip_of_nodup :
    ∀ (cols : List String) (vs : List Val) (j : Nat) (c : String) (v : Val),
      cols.Nodup → cols[j]? = some c → vs[j]? = some v →
      (cols.zip vs).lookup c = some v := by
  intro cols
  induction cols with
  | nil => intro vs j c v _ h; simp at h
  | cons c0 cs ih =>
    intro vs j c v hnd hc hv
    cases vs with
    | nil => simp at hv
    | cons v0 vs =>
      rw [List.nodup_cons] at hnd
      cases j with
      | zero =>
        simp at hc hv
        subst hc; subst hv
        simp [List.lookup]
      | succ j =>
        simp at hc hv
        have hne : c ≠ c0 := by
          intro h
          subst h
          exact hnd.1 (List.getElem?_mem hc)
        simp only [List.zip_cons_cons, List.lookup]
        have : (c == c0) = false := beq_false_of_ne hne
        rw [this]
        exact ih vs j c v hnd.2 hc hv

theorem resolveLoop_all_ok (columns : List String) :
    ∀ (rs : List (List Val)) (values : List Val) (result : List Row),
      (resolveLoop columns (rs.map .ok) values result).2.1 = none
        ∧ (resolveLoop columns (rs.map .ok) values result).1.length
            = result.length + rs.length := by
  intro rs
  induction rs with
  | nil => intro values result; simp [resolveLoop]
  | cons r rs ih =>
    intro values result
    simp only [List.map_cons, resolveLoop]
    obtain ⟨h1, h2⟩ := ih (storeSlots values r)
      (result ++ [fillEntry (storeSlots values r) columns 0 []])
    refine ⟨h1, ?_⟩
    rw [h2]
    simp
    omega

theorem bindSliceLoop_all_ok (env : Env) (typeObj : GoType) :
    ∀ (arr : List Row) (acc : List GoVal),
      (∀ row ∈ arr, (bind env row typeObj (zero typeObj) true).1 = none) →
      bindSliceLoop env typeObj arr acc
        = (none, acc ++ arr.map fun row => (bind env row typeObj (zero typeObj) true).2) := by
  intro arr
  induction arr with
  | nil => intro acc _; simp [bindSliceLoop]
  | cons row rest ih =>
    intro acc h
    have h0 := h row (List.mem_cons_self _ _)
    rw [bindSliceLoop]
    generalize hb : bind env row typeObj (zero typeObj) true = b at h0
    obtain ⟨e, v⟩ := b
    simp only at h0
    subst h0
    simp only
    rw [ih _ (fun r hr => h r (List.mem_cons_of_mem _ hr))]
    simp [hb]

theorem bindSliceLoop_fails (env : Env) (typeObj : GoType) (err : GoErr) :
    ∀ (arr : List Row) (k : Nat) (row : Row) (acc : List GoVal),
      arr[k]? = some row →
      (∀ i < k, ∀ r, arr[i]? = some r →
        (bind env r typeObj (zero typeObj) true).1 = none) →
      (bind env row typeObj (zero typeObj) true).1 = some err →
      (bindSliceLoop env typeObj arr acc).1 = some err := by
  intro arr
  induction arr with
  | nil => intro k row acc h; simp at h
  | cons r0 rest ih =>
    intro k row acc hk hprev hfail
    rw [bindSliceLoop]
    cases k with
    | zero =>
      simp at hk
      subst hk
      generalize bind env r0 typeObj (zero typeObj) true = b at hfail
      obtain ⟨e, v⟩ := b
      simp only at hfail
      subst hfail
      rfl
    | succ k =>
      have h0 := hprev 0 (by omega) r0 (by simp)
      generalize bind env r0 typeObj (zero typeObj) true = b at h0
      obtain ⟨e, v⟩ := b
      simp only at h0
      subst h0
      simp only
      apply ih k row _ (by simpa using hk) _ hfail
      intro i hi r hr
      exact hprev (i + 1) (by omega) r (by simpa using hr)

/-! ## C8: binding every row into a slice of records -/

/-- C8: let the cursor list its columns and yield the rows `rs`, at least one,
none failing, and let every mapping built from them bind without error into a
fresh zero value of the element type.  Then (1) there is one mapping per cursor
row; (2) `Scan` into a pointer to a slice of that element type succeeds and
the slice becomes, in cursor order, the records obtained by binding each
mapping into a fresh zero value, whatever the slice held before; (3) in such a
record, a field whose column is absent from the mapping holds the zero value
of its type. -/
theorem Scan_slice_of_records (env : Env) (columns : List String)
    (rs : List (List Val)) (n : String) (c : Caps) (n' : String) (c' : Caps)
    (elemTy : GoType) (old : GoVal) (hne : rs ≠ [])
    (hb : ∀ row ∈ (resolveDataFromRows (some ⟨.ok columns, rs.map .ok⟩)).1,
      (bind env row elemTy (zero elemTy) true).1 = none) :
    (resolveDataFromRows (some ⟨.ok columns, rs.map .ok⟩)).1.length = rs.length
      ∧ Scan env (some ⟨.ok columns, rs.map .ok⟩)
          (some ⟨.mk n c (.ptr (.mk n' c' (.slice elemTy))), .ptr (some old)⟩)
        = (.ok, some ⟨.mk n c (.ptr (.mk n' c' (.slice elemTy))),
            .ptr (some (.slice (some
              ((resolveDataFromRows (some ⟨.ok columns, rs.map .ok⟩)).1.map
                fun row => (bind env row elemTy (zero elemTy) true).2))))⟩)
      ∧ (∀ (m : String) (cm : Caps) (fs : Fields) (row : Row) (j : Nat)
          (f : StructField),
          elemTy = .mk m cm (.struct fs) → fs.toList[j]? = some f →
          row.lookup (columnOf env f) = none →
          ((bind env row elemTy (zero elemTy) true).2.fields)[j]?
            = (zeroFields fs)[j]?) := by
  obtain ⟨herr, hlen⟩ :=
    resolveLoop_all_ok columns rs (List.replicate columns.length none) []
  have hlen' : (resolveDataFromRows (some ⟨.ok columns, rs.map .ok⟩)).1.length
      = rs.length := by
    simpa [resolveDataFromRows, resolveRun] using hlen
  have herr' : (resolveDataFromRows (some ⟨.ok columns, rs.map .ok⟩)).2 = none := by
    simpa [resolveDataFromRows, resolveRun] using herr
  refine ⟨hlen', ?_, ?_⟩
  · have hkind : (GoType.mk n' c' (.slice elemTy)).kind = .Slice := rfl
    simp only [Scan, hkind, if_true]
    generalize resolveDataFromRows (some ⟨.ok columns, rs.map .ok⟩) = res at *
    obtain ⟨data, e⟩ := res
    simp only at hlen' herr' hb
    subst herr'
    cases data with
    | nil =>
      exfalso
      apply hne
      exact List.length_eq_zero.mp (by simpa using hlen'.symm)
    | cons row rest =>
      simp only [bindSlice, bindSliceLoop_all_ok env elemTy (row :: rest) [] hb]
      simp
  · intro m cm fs row j f hty hf hm
    subst hty
    have h := bindFields_frame env row fs.toList 0 (zeroFields fs) j
      (Or.inr ⟨f, by simpa using hf, Or.inl hm⟩)
    simp only [bind, zero, zeroShape, GoVal.fields, recoverFault]
    generalize bindFields env row fs.toList 0 (zeroFields fs) = r at h
    obtain ⟨r1, r2⟩ := r
    cases r1 <;> simpa [GoVal.fields] using h

/-- C8 witness: two rows scanned into a `[]User` that held one stale record;
the second row has a null `name`. -/
theorem Scan_slice_of_records_witness :
    Scan demoEnv
        (some ⟨.ok ["id", "name"],
          [.ok [Val.int64 1, Val.bytes "ann"], .ok [Val.int64 2, none]]⟩)
        (pointerTo tUsers (.slice (some [.struct [.int 9, .str "stale"]])))
      = (.ok, pointerTo tUsers
          (.slice (some [.struct [.int 1, .str "ann"], .struct [.int 2, .str ""]]))) :=
  (Scan_slice_of_records demoEnv ["id", "name"]
    [[Val.int64 1, Val.bytes "ann"], [Val.int64 2, none]] "" ⟨false, false, false⟩
    "" noCaps tUser (.slice (some [.struct [.int 9, .str "stale"]])) (by simp)
    (by
      intro row h
      have h' : row ∈ [[("id", Val.int64 1), ("name", Val.str "ann")],
          [("id", Val.int64 2), ("name", none)]] := h
      simp only [List.mem_cons, List.mem_singleton, List.not_mem_nil, or_false] at h'
      rcases h' with rfl | rfl <;> rfl)).2.1

/-! ## C9: a row that fails to bind -/

/-- C9 counterexample: of two rows, the first binds into a `User` and the
second does not (its `id` is a float64).  `Scan` into a `[]User` that was nil
returns the error of the second row, and the destination is still nil: it does
not hold the record bound from the first row. -/
theorem Scan_slice_second_row_fails :
    bind demoEnv [("id", Val.int64 1), ("name", Val.str "ann")] tUser (zero tUser) true
        = (none, .struct [.int 1, .str "ann"])
      ∧ Scan demoEnv
          (some ⟨.ok ["id", "name"],
            [.ok [Val.int64 1, Val.bytes "ann"],
             .ok [some ⟨tFloat64, .float 4⟩, Val.bytes "bob"]]⟩)
          (pointerTo tUsers (.slice none))
        = (.err .ErrConversionFailed, pointerTo tUsers (.slice none)) := by
  constructor <;> rfl

/-- C9 as amended: when the cursor is read without error into the mappings
`data`, the mappings before position `k` bind without error and the one at
position `k` fails with `err`, then `Scan` into a pointer to a slice returns
`err` and the destination slice is exactly what it was before the call: it
holds neither the records bound from the earlier rows nor anything of row
`k`. -/
theorem Scan_slice_bind_failure (env : Env) (rows : Option Rows) (data : List Row)
    (n : String) (c : Caps) (n' : String) (c' : Caps) (elemTy : GoType)
    (old : GoVal) (k : Nat) (row : Row) (err : GoErr)
    (hd : resolveDataFromRows rows = (data, none))
    (hk : data[k]? = some row)
    (hprev : ∀ i < k, ∀ r, data[i]? = some r →
      (bind env r elemTy (zero elemTy) true).1 = none)
    (hfail : (bind env row elemTy (zero elemTy) true).1 = some err) :
    Scan env rows
        (some ⟨.mk n c (.ptr (.mk n' c' (.slice elemTy))), .ptr (some old)⟩)
      = (.err err,
          some ⟨.mk n c (.ptr (.mk n' c' (.slice elemTy))), .ptr (some old)⟩) := by
  have hkind : (GoType.mk n' c' (.slice elemTy)).kind = .Slice := rfl
  have hloop := bindSliceLoop_fails env elemTy err data k row [] hk hprev hfail
  cases data with
  | nil => simp at hk
  | cons r0 rest =>
    simp only [Scan, hd, hkind, if_true, bindSlice]
    generalize bindSliceLoop env elemTy (r0 :: rest) [] = l at hloop
    obtain ⟨e, v⟩ := l
    simp only at hloop
    subst hloop
    simp

/-- C9 witness: the cursor of the counterexample, with a destination that
held one record before the call. -/
theorem Scan_slice_bind_failure_witness :
    Scan demoEnv
        (some ⟨.ok ["id", "name"],
          [.ok [Val.int64 1, Val.bytes "ann"],
           .ok [some ⟨tFloat64, .float 4⟩, Val.bytes "bob"]]⟩)
        (pointerTo tUsers (.slice (some [.struct [.int 9, .str "stale"]])))
      = (.err .ErrConversionFailed,
          pointerTo tUsers (.slice (some [.struct [.int 9, .str "stale"]]))) :=
  Scan_slice_bind_failure demoEnv
    (some ⟨.ok ["id", "name"],
      [.ok [Val.int64 1, Val.bytes "ann"],
       .ok [some ⟨tFloat64, .float 4⟩, Val.bytes "bob"]]⟩)
    [[("id", Val.int64 1), ("name", Val.str "ann")],
     [("id", some ⟨tFloat64, .float 4⟩), ("name", Val.str "bob")]]
    "" ⟨false, false, false⟩ "" noCaps tUser
    (.slice (some [.struct [.int 9, .str "stale"]])) 1
    [("id", some ⟨tFloat64, .float 4⟩), ("name", Val.str "bob")] .ErrConversionFailed
    rfl rfl
    (by
      intro i hi r hr
      have hi0 : i = 0 := by omega
      subst hi0
      simp only [List.getElem?_cons_zero, Option.some.injEq] at hr
      subst hr
      rfl)
    rfl

/-! ## C10: the untyped output -/

/-- C10: for a cursor that lists pairwise distinct columns and yields the rows
`rs` without error, each with one value per column, `ScanToMap` returns no
error and one mapping per row, in cursor order, the mapping of a row pairing
the columns, in order, with the row's values passed through `entryValue`.  So
the keys of the `i`-th mapping are the columns, and under the `j`-th column it
holds `entryValue` of the `j`-th value of row `i`; `entryValue` turns a byte
sequence into the string with the same bytes and keeps null and every value
of another type. -/
theorem ScanToMap_rows (columns : List String) (rs : List (List Val))
    (hnd : columns.Nodup) (hl : ∀ r ∈ rs, r.length = columns.length) :
    ScanToMap (some ⟨.ok columns, rs.map .ok⟩)
        = (rs.map (fun r => columns.zip (r.map entryValue)), none)
      ∧ (ScanToMap (some ⟨.ok columns, rs.map .ok⟩)).1.length = rs.length
      ∧ (∀ (i j : Nat) (r : List Val) (c : String) (v : Val),
          rs[i]? = some r → columns[j]? = some c → r[j]? = some v →
          ∃ row, (ScanToMap (some ⟨.ok columns, rs.map .ok⟩)).1[i]? = some row
            ∧ row.map Prod.fst = columns
            ∧ row.lookup c = some (entryValue v))
      ∧ (∀ s : String, entryValue (Val.bytes s) = Val.str s)
      ∧ entryValue none = none
      ∧ (∀ d : Dyn, d.ty ≠ tBytes → entryValue (some d) = some d) := by
  have hmain : ScanToMap (some ⟨.ok columns, rs.map .ok⟩)
      = (rs.map (fun r => columns.zip (r.map entryValue)), none) := by
    have h := resolveLoop_ok columns hnd rs (List.replicate columns.length none) []
      (by simp) hl
    simp [ScanToMap, resolveDataFromRows, resolveRun, h]
  refine ⟨hmain, ?_, ?_, ?_, ?_, ?_⟩
  · rw [hmain]; simp
  · intro i j r c v hr hc hv
    refine ⟨columns.zip (r.map entryValue), ?_, ?_, ?_⟩
    · rw [hmain]; simp [hr]
    · have hlen : r.length = columns.length := hl r (List.getElem?_mem hr)
      rw [List.map_fst_zip]
      simp [hlen]
    · exact lookup_zip_of_nodup columns (r.map entryValue) j c (entryValue v) hnd hc
        (by simp [hv])
  · intro s; rfl
  · rfl
  · intro d hd
    simp [entryValue, hd]

/-- C10 witness: two columns, two rows; a byte sequence is decoded, an int64
and a null are kept. -/
theorem ScanToMap_rows_witness :
    ScanToMap (some ⟨.ok ["id", "name"],
        [.ok [Val.int64 1, Val.bytes "ann"], .ok [none, Val.str "bob"]]⟩)
      = ([[("id", Val.int64 1), ("name", Val.str "ann")],
          [("id", none), ("name", Val.str "bob")]], none) :=
  (ScanToMap_rows ["id", "name"] [[Val.int64 1, Val.bytes "ann"], [none, Val.str "bob"]]
    (by decide) (by
      intro r hr
      simp only [List.mem_cons, List.mem_singleton, List.not_mem_nil, or_false] at hr
      rcases hr with rfl | rfl <;> rfl)).1

/-! ## C11: errors of the cursor -/

theorem resolveLoop_error (columns : List String) (err : GoErr)
    (rest : List (Except GoErr (List Val))) :
    ∀ (before : List (List Val)) (values : List Val) (result : List Row),
      resolveLoop columns (before.map .ok ++ .error err :: rest) values result
        = ([], some err, rest) := by
  intro before
  induction before with
  | nil => intro values result; simp [resolveLoop]
  | cons r rs ih =>
    intro values result
    simp only [List.map_cons, List.cons_append, resolveLoop]
    exact ih _ _

/-- C11: when `Columns` fails with `err`, and likewise when `Next` announces
the rows `before` whose values are read without error and then a row whose
`Scan` fails with `err`: (1) `resolveDataFromRows` ends with `err` itself, no
mapping (the nil slice) and the cursor left where it was, with every row after
the failing one (all rows, when `Columns` failed) still unannounced and unread;
(2) `ScanToMap` returns no mapping and `err`; (3) `Scan` into a non-nil
pointer returns `err` and leaves the destination as it was. -/
theorem cursor_error_propagates (env : Env) (columns : List String)
    (before : List (List Val)) (err : GoErr)
    (rest pending : List (Except GoErr (List Val)))
    (n : String) (c : Caps) (targetTy : GoType) (target : GoVal) :
    resolveRun (some ⟨.error err, pending⟩) = ([], some err, pending)
      ∧ resolveRun (some ⟨.ok columns, before.map .ok ++ .error err :: rest⟩)
          = ([], some err, rest)
      ∧ ScanToMap (some ⟨.error err, pending⟩) = ([], some err)
      ∧ ScanToMap (some ⟨.ok columns, before.map .ok ++ .error err :: rest⟩)
          = ([], some err)
      ∧ Scan env (some ⟨.error err, pending⟩)
            (some ⟨.mk n c (.ptr targetTy), .ptr (some target)⟩)
          = (.err err, some ⟨.mk n c (.ptr targetTy), .ptr (some target)⟩)
      ∧ Scan env (some ⟨.ok columns, before.map .ok ++ .error err :: rest⟩)
            (some ⟨.mk n c (.ptr targetTy), .ptr (some target)⟩)
          = (.err err, some ⟨.mk n c (.ptr targetTy), .ptr (some target)⟩) := by
  have h1 : resolveRun (some ⟨.error err, pending⟩) = ([], some err, pending) := rfl
  have h2 : resolveRun (some ⟨.ok columns, before.map .ok ++ .error err :: rest⟩)
      = ([], some err, rest) := by
    simp only [resolveRun]
    exact resolveLoop_error columns err rest before _ _
  refine ⟨h1, h2, ?_, ?_, ?_, ?_⟩
  · simp [ScanToMap, resolveDataFromRows, h1]
  · simp [ScanToMap, resolveDataFromRows, h2]
  · simp [Scan, resolveDataFromRows, h1]
  · simp [Scan, resolveDataFromRows, h2]

/-! ## Auxiliary facts about `parseMaps` -/

theorem parseMapsRow_ok (i : Nat) (v : Row) :
    ∀ cols : List String, (∀ c ∈ cols, v.lookup c ≠ none) →
      parseMapsRow i v cols = .ok (cols.map fun c => (v.lookup c).getD none) := by
  intro cols
  induction cols with
  | nil => intro _; rfl
  | cons k ks ih =>
    intro h
    have hk := h k (List.mem_cons_self _ _)
    rw [parseMapsRow, ih (fun c hc => h c (List.mem_cons_of_mem _ hc))]
    cases hl : v.lookup k with
    | none => exact absurd hl hk
    | some val => simp [hl]

theorem parseMapsRow_missing (i : Nat) (v : Row) (k : String) (c2 : List String) :
    ∀ c1 : List String, (∀ c ∈ c1, v.lookup c ≠ none) → v.lookup k = none →
      parseMapsRow i v (c1 ++ k :: c2)
        = .error (.adhoc ("invalid values[" ++ FormatInt i ++ "] for column: " ++ k)) := by
  intro c1
  induction c1 with
  | nil => intro _ hk; simp [parseMapsRow, hk]
  | cons c cs ih =>
    intro h hk
    have hc := h c (List.mem_cons_self _ _)
    rw [List.cons_append, parseMapsRow, ih (fun c' hc' => h c' (List.mem_cons_of_mem _ hc')) hk]
    cases hl : v.lookup c with
    | none => exact absurd hl hc
    | some val => simp

theorem parseMapsRow_present (i : Nat) (v : Row) :
    ∀ (cols : List String) (colArgs : List Val),
      parseMapsRow i v cols = .ok colArgs → ∀ c ∈ cols, v.lookup c ≠ none := by
  intro cols
  induction cols with
  | nil => intro _ _ c hc; simp at hc
  | cons k ks ih =>
    intro colArgs h c hc
    rw [parseMapsRow] at h
    cases hl : v.lookup k with
    | none => simp [hl] at h
    | some val =>
      simp only [hl] at h
      cases hr : parseMapsRow i v ks with
      | error e => simp [hr] at h
      | ok args =>
        rcases List.mem_cons.mp hc with rfl | hc'
        · simp [hl]
        · exact ih args hr c hc'

theorem parseMapsLoop_ok (cols : List String) :
    ∀ (rest : List Row) (i : Nat) (args : List (List Val)),
      (∀ m ∈ rest, ∀ c ∈ cols, m.lookup c ≠ none) →
      parseMapsLoop cols i rest args
        = (cols, args ++ rest.map (fun m => cols.map fun c => (m.lookup c).getD none),
            none) := by
  intro rest
  induction rest with
  | nil => intro i args _; simp [parseMapsLoop]
  | cons v vs ih =>
    intro i args h
    rw [parseMapsLoop, parseMapsRow_ok i v cols (h v (List.mem_cons_self _ _))]
    simp only
    rw [ih (i + 1) _ (fun m hm => h m (List.mem_cons_of_mem _ hm))]
    simp

theorem parseMapsLoop_present (cols : List String) :
    ∀ (rest : List Row) (i : Nat) (args : List (List Val)),
      (parseMapsLoop cols i rest args).2.2 = none →
      ∀ m ∈ rest, ∀ c ∈ cols, m.lookup c ≠ none := by
  intro rest
  induction rest with
  | nil => intro i args _ m hm; simp at hm
  | cons v vs ih =>
    intro i args h m hm
    rw [parseMapsLoop] at h
    cases hr : parseMapsRow i v cols with
    | error e => simp [hr] at h
    | ok colArgs =>
      simp only [hr] at h
      rcases List.mem_cons.mp hm with rfl | hm'
      · exact parseMapsRow_present i m cols colArgs hr
      · exact ih (i + 1) _ h m hm'

theorem parseMapsLoop_missing (cols : List String) (bad : Row) (post : List Row)
    (k : String) (c1 c2 : List String) (hcols : cols = c1 ++ k :: c2)
    (hc1 : ∀ c ∈ c1, bad.lookup c ≠ none) (hk : bad.lookup k = none) :
    ∀ (pre : List Row) (i : Nat) (args : List (List Val)),
      (∀ m ∈ pre, ∀ c ∈ cols, m.lookup c ≠ none) →
      parseMapsLoop cols i (pre ++ bad :: post) args
        = ([], [], some (.adhoc ("invalid values[" ++ FormatInt ((i + pre.length : Nat) : Int)
              ++ "] for column: " ++ k))) := by
  intro pre
  induction pre with
  | nil =>
    intro i args _
    rw [List.nil_append, parseMapsLoop, hcols, parseMapsRow_missing i bad k c2 c1 hc1 hk]
    simp
  | cons v vs ih =>
    intro i args h
    rw [List.cons_append, parseMapsLoop,
      parseMapsRow_ok i v cols (h v (List.mem_cons_self _ _))]
    simp only
    rw [ih (i + 1) _ (fun m hm => h m (List.mem_cons_of_mem _ hm))]
    simp only [List.length_cons]
    have : i + 1 + vs.length = i + (vs.length + 1) := by omega
    rw [this]

theorem lookup_ne_none_of_mem_keys (m : Row) (c : String)
    (h : c ∈ m.map Prod.fst) : m.lookup c ≠ none := by
  induction m with
  | nil => simp at h
  | cons e es ih =>
    obtain ⟨k, v⟩ := e
    simp only [List.map_cons, List.mem_cons] at h
    by_cases hck : c = k
    · subst hck; simp [List.lookup]
    · have hb : (c == k) = false := beq_false_of_ne hck
      simp only [List.lookup, hb]
      exact ih (h.resolve_left hck)

theorem parseMaps_of_present (first : Row) (rest : List Row)
    (h : ∀ m ∈ rest, ∀ c ∈ first.map Prod.fst, m.lookup c ≠ none) :
    parseMaps (first :: rest)
      = (first.map Prod.fst,
          (first :: rest).map (fun m =>
            (first.map Prod.fst).map fun c => (m.lookup c).getD none),
          none) := by
  simp only [parseMaps]
  rw [parseMapsLoop_ok (first.map Prod.fst) rest 1 _ h]
  simp

/-! ## C12: the output of `parseMaps` -/

/-- C12: let `parseMaps` succeed on a sequence whose first mapping is `first`
(a map: its keys are pairwise distinct), with columns `cols` and argument rows
`args`.  Then the columns are the keys of `first`, pairwise distinct; there is
one argument tuple per input mapping, in input order; and the tuple of mapping
`m` has the length of the column list and holds, at every position `j`, the
value that `m` holds under the `j`-th column. -/
theorem parseMaps_canonical (first : Row) (rest : List Row) (cols : List String)
    (args : List (List Val)) (hkeys : (first.map Prod.fst).Nodup)
    (hok : parseMaps (first :: rest) = (cols, args, none)) :
    cols = first.map Prod.fst ∧ cols.Nodup
      ∧ args.length = (first :: rest).length
      ∧ ∀ (i : Nat) (m : Row), (first :: rest)[i]? = some m →
          ∃ tuple, args[i]? = some tuple ∧ tuple.length = cols.length
            ∧ ∀ (j : Nat) (c : String), cols[j]? = some c →
                ∃ v, m.lookup c = some v ∧ tuple[j]? = some v := by
  have hpres : ∀ m ∈ rest, ∀ c ∈ first.map Prod.fst, m.lookup c ≠ none := by
    have h2 : (parseMaps (first :: rest)).2.2 = none := by rw [hok]
    simp only [parseMaps] at h2
    exact parseMapsLoop_present _ rest 1 _ h2
  have hall : ∀ m ∈ first :: rest, ∀ c ∈ first.map Prod.fst, m.lookup c ≠ none := by
    intro m hm c hc
    rcases List.mem_cons.mp hm with rfl | hm'
    · exact lookup_ne_none_of_mem_keys m c hc
    · exact hpres m hm' c hc
  rw [parseMaps_of_present first rest hpres] at hok
  simp only [Prod.mk.injEq] at hok
  obtain ⟨hc, ha, _⟩ := hok
  subst hc
  subst ha
  refine ⟨rfl, hkeys, by simp, ?_⟩
  intro i m hm
  refine ⟨(first.map Prod.fst).map fun c => (m.lookup c).getD none, ?_, by simp, ?_⟩
  · rw [List.getElem?_map, hm]; rfl
  · intro j c hj
    have hne := hall m (List.getElem?_mem hm) c (List.getElem?_mem hj)
    cases hl : m.lookup c with
    | none => exact absurd hl hne
    | some v =>
      refine ⟨v, rfl, ?_⟩
      rw [List.getElem?_map, hj]
      simp [hl]

/-- C12 witness: two mappings, the second listing its keys in another order
and holding one key more. -/
theorem parseMaps_canonical_witness :
    parseMaps [[("a", Val.int64 1), ("b", none)],
        [("b", Val.int64 2), ("a", Val.int64 3), ("z", Val.int64 9)]]
        = (["a", "b"], [[Val.int64 1, none], [Val.int64 3, Val.int64 2]], none)
      ∧ ["a", "b"] = [("a", Val.int64 1), ("b", (none : Val))].map Prod.fst
      ∧ ["a", "b"].Nodup :=
  ⟨rfl,
    (parseMaps_canonical [("a", Val.int64 1), ("b", none)]
      [[("b", Val.int64 2), ("a", Val.int64 3), ("z", Val.int64 9)]]
      ["a", "b"] [[Val.int64 1, none], [Val.int64 3, Val.int64 2]]
      (by decide) rfl).1,
    (parseMaps_canonical [("a", Val.int64 1), ("b", none)]
      [[("b", Val.int64 2), ("a", Val.int64 3), ("z", Val.int64 9)]]
      ["a", "b"] [[Val.int64 1, none], [Val.int64 3, Val.int64 2]]
      (by decide) rfl).2.1⟩

/-! ## C14: a later mapping lacks a column -/

/-- C14: let the elements `pre` after the first mapping hold every key of the
first, and let the next element `bad` lack the column `k`, the columns before
`k` in the column list being present in `bad`.  Then `parseMaps` fails, returns
no columns and no argument rows (nil slices), and the error text is
"invalid values[i] for column: k", where `i` is the index of `bad` in the
sequence, written in decimal. -/
theorem parseMaps_missing_key (first : Row) (pre : List Row) (bad : Row)
    (post : List Row) (k : String) (c1 c2 : List String)
    (hcols : first.map Prod.fst = c1 ++ k :: c2)
    (hpre : ∀ m ∈ pre, ∀ c ∈ first.map Prod.fst, m.lookup c ≠ none)
    (hc1 : ∀ c ∈ c1, bad.lookup c ≠ none) (hk : bad.lookup k = none) :
    parseMaps (first :: (pre ++ bad :: post))
        = ([], [], some (.adhoc ("invalid values[" ++ Nat.repr (pre.length + 1)
            ++ "] for column: " ++ k)))
      ∧ (first :: (pre ++ bad :: post))[pre.length + 1]? = some bad := by
  constructor
  · simp only [parseMaps]
    rw [parseMapsLoop_missing (first.map Prod.fst) bad post k c1 c2 hcols hc1 hk pre 1 _ hpre]
    have hf : FormatInt ((1 + pre.length : Nat) : Int) = Nat.repr (pre.length + 1) := by
      unfold FormatInt
      have : ¬ (((1 + pre.length : Nat) : Int) < 0) := by omega
      rw [if_neg this]
      congr 1
      omega
    rw [hf]
  · rw [List.getElem?_cons_succ, List.getElem?_append_right (Nat.le_refl _)]
    simp

/-- C14 witness: the third mapping (index 2) holds `a` but lacks `b`. -/
theorem parseMaps_missing_key_witness :
    parseMaps [[("a", Val.int64 1), ("b", Val.int64 2)],
        [("b", Val.int64 4), ("a", Val.int64 3)], [("a", Val.int64 5)],
        [("c", Val.int64 6)]]
      = ([], [], some (.adhoc "invalid values[2] for column: b")) :=
  (parseMaps_missing_key [("a", Val.int64 1), ("b", Val.int64 2)]
    [[("b", Val.int64 4), ("a", Val.int64 3)]] [("a", Val.int64 5)]
    [[("c", Val.int64 6)]] "b" ["a"] [] rfl
    (by
      intro m hm c hc
      simp only [List.mem_singleton] at hm
      subst hm
      simp only [List.map_cons, List.map_nil, List.mem_cons, List.mem_singleton,
        List.not_mem_nil, or_false] at hc
      rcases hc with rfl | rfl <;> simp [List.lookup])
    (by
      intro c hc
      simp only [List.mem_singleton] at hc
      subst hc
      simp [List.lookup])
    rfl).1

/-! ## C15: a later mapping holds a key more -/

/-- C15 counterexample: the second mapping holds the key `b`, absent from the
first; `parseMaps` succeeds, with the column `a` only, and the value under `b`
is dropped. -/
theorem parseMaps_extra_key_accepted :
    parseMaps [[("a", Val.int64 1)], [("a", Val.int64 2), ("b", Val.int64 3)]]
      = (["a"], [[Val.int64 1], [Val.int64 2]], none) := by
  rfl

/-- C15 as amended: `parseMaps` succeeds exactly when every element after the
first holds every key of the first; and then each argument tuple holds the
element's values under the columns of the first element, in column order, and
nothing else: what an element holds under any other key is not read. -/
theorem parseMaps_succeeds_iff (first : Row) (rest : List Row) :
    ((parseMaps (first :: rest)).2.2 = none
        ↔ ∀ m ∈ rest, ∀ c ∈ first.map Prod.fst, m.lookup c ≠ none)
      ∧ ((∀ m ∈ rest, ∀ c ∈ first.map Prod.fst, m.lookup c ≠ none) →
          parseMaps (first :: rest)
            = (first.map Prod.fst,
                (first :: rest).map (fun m =>
                  (first.map Prod.fst).map fun c => (m.lookup c).getD none),
                none)) := by
  refine ⟨⟨?_, ?_⟩, parseMaps_of_present first rest⟩
  · intro h
    simp only [parseMaps] at h
    exact parseMapsLoop_present _ rest 1 _ h
  · intro h
    rw [parseMaps_of_present first rest h]

/-! ## Auxiliary facts about `parseStruct` -/

theorem parseStructFields_ok (nenv : NormEnv) :
    ∀ (fl : List StructField) (vals : List GoVal),
      (∀ p ∈ fl.zip vals, p.2.isZero = false → p.1.exported = true) →
      parseStructFields nenv fl vals
        = (.ok,
            ((fl.zip vals).filter fun p => !p.2.isZero && !nenv.IsLcfirst p.1.name).map
              (fun p => if nenv.GetStructTag p.1 ≠ "" then nenv.GetStructTag p.1
                else p.1.name),
            ((fl.zip vals).filter fun p => !p.2.isZero && !nenv.IsLcfirst p.1.name).map
              (fun p => interfaceOf p.1.ty p.2)) := by
  intro fl
  induction fl with
  | nil => intro vals _; simp [parseStructFields]
  | cons f fs ih =>
    intro vals h
    cases vals with
    | nil => simp [parseStructFields]
    | cons v vs =>
      have ih' := ih vs (fun p hp => h p (by simp [List.zip_cons_cons, hp]))
      have hf := h (f, v) (by simp [List.zip_cons_cons])
      rw [parseStructFields, ih']
      by_cases hz : v.isZero = true
      · simp [hz, List.filter_cons]
      · have hz' : v.isZero = false := by simpa using hz
        have he : f.exported = true := hf hz'
        by_cases hl : nenv.IsLcfirst f.name = true
        · simp [hz', he, hl, List.filter_cons]
        · have hl' : nenv.IsLcfirst f.name = false := by simpa using hl
          simp [hz', he, hl', List.filter_cons]

theorem parseStructFields_fault (nenv : NormEnv) :
    ∀ (fl : List StructField) (vals : List GoVal),
      (∃ p ∈ fl.zip vals, p.2.isZero = false ∧ p.1.exported = false) →
      parseStructFields nenv fl vals = (.fault interfaceFault, [], []) := by
  intro fl
  induction fl with
  | nil => intro vals h; simp at h
  | cons f fs ih =>
    intro vals h
    cases vals with
    | nil => simp at h
    | cons v vs =>
      rw [parseStructFields]
      by_cases hz : v.isZero = true
      · have : ∃ p ∈ fs.zip vs, p.2.isZero = false ∧ p.1.exported = false := by
          obtain ⟨p, hp, hpz, hpe⟩ := h
          simp only [List.zip_cons_cons, List.mem_cons] at hp
          rcases hp with rfl | hp
          · simp [hz] at hpz
          · exact ⟨p, hp, hpz, hpe⟩
        simp [hz, ih vs this]
      · have hz' : v.isZero = false := by simpa using hz
        by_cases he : f.exported = true
        · have : ∃ p ∈ fs.zip vs, p.2.isZero = false ∧ p.1.exported = false := by
            obtain ⟨p, hp, hpz, hpe⟩ := h
            simp only [List.zip_cons_cons, List.mem_cons] at hp
            rcases hp with rfl | hp
            · simp [he] at hpe
            · exact ⟨p, hp, hpz, hpe⟩
          simp [hz', he, ih vs this]
        · have he' : f.exported = false := by simpa using he
          simp [hz', he']

theorem parseStructFields_pattern (nenv : NormEnv) :
    ∀ (fl : List StructField) (vals vals' : List GoVal),
      vals.map GoVal.isZero = vals'.map GoVal.isZero →
      (parseStructFields nenv fl vals).1 = (parseStructFields nenv fl vals').1
        ∧ (parseStructFields nenv fl vals).2.1 = (parseStructFields nenv fl vals').2.1 := by
  intro fl
  induction fl with
  | nil => intro vals vals' _; simp [parseStructFields]
  | cons f fs ih =>
    intro vals vals' h
    cases vals with
    | nil =>
      cases vals' with
      | nil => simp
      | cons v' vs' => simp at h
    | cons v vs =>
      cases vals' with
      | nil => simp at h
      | cons v' vs' =>
        simp only [List.map_cons, List.cons.injEq] at h
        obtain ⟨hv, hvs⟩ := h
        obtain ⟨ih1, ih2⟩ := ih vs vs' hvs
        rw [parseStructFields, parseStructFields, ← hv]
        generalize parseStructFields nenv fs vs = r at ih1 ih2
        generalize parseStructFields nenv fs vs' = r' at ih1 ih2
        obtain ⟨r1, r2, r3⟩ := r
        obtain ⟨r1', r2', r3'⟩ := r'
        simp only at ih1 ih2
        subst ih1
        subst ih2
        by_cases hz : v.isZero = true
        · simp [hz]
        · by_cases he : f.exported = true
          · by_cases hl : nenv.IsLcfirst f.name = true
            · simp [hz, he, hl]
            · cases r1 <;> simp [hz, he, hl]
          · simp [hz, he]

theorem parseStructFields_length (nenv : NormEnv) :
    ∀ (fl : List StructField) (vals : List GoVal),
      (parseStructFields nenv fl vals).2.2.length
        = (parseStructFields nenv fl vals).2.1.length := by
  intro fl
  induction fl with
  | nil => intro vals; simp [parseStructFields]
  | cons f fs ih =>
    intro vals
    cases vals with
    | nil => simp [parseStructFields]
    | cons v vs =>
      have ih' := ih vs
      rw [parseStructFields]
      generalize parseStructFields nenv fs vs = r at ih'
      obtain ⟨r1, r2, r3⟩ := r
      simp only at ih'
      by_cases hz : v.isZero = true
      · simp [hz, ih']
      · by_cases he : f.exported = true
        · by_cases hl : nenv.IsLcfirst f.name = true
          · simp [hz, he, hl, ih']
          · cases r1 <;> simp [hz, he, hl, ih']
        · simp [hz, he]

theorem parseStructElems_records (nenv : NormEnv) (n : String) (c : Caps)
    (fs : Fields) :
    ∀ recs : List (List GoVal),
      (∀ vals ∈ recs, (parseStructFields nenv fs.toList vals).1 = .ok) →
      parseStructElems nenv (.mk n c (.struct fs)) (recs.map GoVal.struct)
        = (.ok,
            (recs.head?.map fun vals => (parseStructFields nenv fs.toList vals).2.1).getD [],
            recs.map fun vals => (parseStructFields nenv fs.toList vals).2.2) := by
  intro recs
  induction recs with
  | nil => intro _; simp [parseStructElems]
  | cons vals rest ih =>
    intro h
    have h0 := h vals (List.mem_cons_self _ _)
    have ih' := ih (fun v hv => h v (List.mem_cons_of_mem _ hv))
    simp only [List.map_cons, parseStructElems, parseStructAt, ih']
    generalize hr : parseStructFields nenv fs.toList vals = r at h0
    obtain ⟨r1, r2, r3⟩ := r
    simp only at h0
    subst h0
    simp [hr]

/-! ## C13: a sequence of records -/

/-- C13 counterexample: of two `Acct` records the second has a zero
`UserName`.  The column list, taken from the first, is `UserName`, `age`; the
tuple of the second record holds one entry, and that entry, at position 0
under the column `UserName`, is the value of its field `Age`. -/
theorem parseStruct_slice_zero_patterns_differ :
    parseStruct demoNorm
        (some ⟨tAccts, .slice (some [.struct [.str "ann", .int 3, .int 0],
          .struct [.str "", .int 4, .int 0]])⟩)
      = (.ok, ["UserName", "age"], [[Val.str "ann", Val.int 3], [Val.int 4]]) := by
  rfl

/-- C13 as amended: for a slice of records of one record type, every record
passing the field loop without a fault, `parseStruct` returns the column list
that the field loop derives from the first record and, for every record, the
argument tuple that the field loop derives from that record itself (its own
non-zero fields).  The tuple of a record has as many entries as the record has
columns of its own; when the record is zero in exactly the fields where the
first record is, its own columns are the column list, so its tuple has the
length of the column list. -/
theorem parseStruct_slice_of_records (nenv : NormEnv) (n : String) (c : Caps)
    (fs : Fields) (n' : String) (c' : Caps) (recs : List (List GoVal))
    (hok : ∀ vals ∈ recs, (parseStructFields nenv fs.toList vals).1 = .ok) :
    parseStruct nenv
        (some ⟨.mk n' c' (.slice (.mk n c (.struct fs))),
          .slice (some (recs.map GoVal.struct))⟩)
      = (.ok,
          (recs.head?.map fun vals => (parseStructFields nenv fs.toList vals).2.1).getD [],
          recs.map fun vals => (parseStructFields nenv fs.toList vals).2.2)
      ∧ (∀ vals ∈ recs,
          (parseStructFields nenv fs.toList vals).2.2.length
            = (parseStructFields nenv fs.toList vals).2.1.length)
      ∧ (∀ vals ∈ recs, ∀ first : List GoVal, recs.head? = some first →
          vals.map GoVal.isZero = first.map GoVal.isZero →
          (parseStructFields nenv fs.toList vals).2.1
              = (parseStructFields nenv fs.toList first).2.1
            ∧ (parseStructFields nenv fs.toList vals).2.2.length
              = (parseStructFields nenv fs.toList first).2.1.length) := by
  refine ⟨?_, ?_, ?_⟩
  · simp only [parseStruct, parseStructAt]
    exact parseStructElems_records nenv n c fs recs hok
  · intro vals _
    exact parseStructFields_length nenv fs.toList vals
  · intro vals _ first _ hz
    have h := (parseStructFields_pattern nenv fs.toList vals first hz).2
    exact ⟨h, by rw [parseStructFields_length, h]⟩

/-- C13 witness: two `Acct` records with the same zero fields. -/
theorem parseStruct_slice_of_records_witness :
    parseStruct demoNorm
        (some ⟨tAccts, .slice (some [.struct [.str "ann", .int 3, .int 0],
          .struct [.str "bob", .int 4, .int 0]])⟩)
      = (.ok, ["UserName", "age"],
          [[Val.str "ann", Val.int 3], [Val.str "bob", Val.int 4]]) :=
  (parseStruct_slice_of_records demoNorm "Acct" noCaps acctFields "" noCaps
    [[.str "ann", .int 3, .int 0], [.str "bob", .int 4, .int 0]]
    (by
      intro vals h
      simp only [List.mem_cons, List.mem_singleton, List.not_mem_nil, or_false] at h
      rcases h with rfl | rfl <;> rfl)).1

/-! ## C16: a single record -/

/-- C16 (the code at the failing input, and in general): (1) an `Acct` whose
unexported field `secret` holds 5 makes `parseStruct` panic: `Interface()` is
called on the field before its name is tested; (2) so does every record with a
non-zero unexported field; (3) a record whose non-zero fields are all exported
gives, without error or fault, one tuple and the column list of the fields that
are non-zero and pass the name test, in declaration order; (4) a non-nil
pointer to a record gives what the record gives. -/
theorem parseStruct_unexported_nonzero_field :
    parseStruct demoNorm (some ⟨tAcct, .struct [.str "ann", .int 3, .int 5]⟩)
        = (.fault interfaceFault, [], [])
      ∧ (∀ (nenv : NormEnv) (n : String) (c : Caps) (fs : Fields) (vals : List GoVal),
          (∃ p ∈ fs.toList.zip vals, p.2.isZero = false ∧ p.1.exported = false) →
          parseStruct nenv (some ⟨.mk n c (.struct fs), .struct vals⟩)
            = (.fault interfaceFault, [], []))
      ∧ (∀ (nenv : NormEnv) (n : String) (c : Caps) (fs : Fields) (vals : List GoVal),
          (∀ p ∈ fs.toList.zip vals, p.2.isZero = false → p.1.exported = true) →
          parseStruct nenv (some ⟨.mk n c (.struct fs), .struct vals⟩)
            = (.ok,
                ((fs.toList.zip vals).filter fun p =>
                    !p.2.isZero && !nenv.IsLcfirst p.1.name).map
                  (fun p => if nenv.GetStructTag p.1 ≠ "" then nenv.GetStructTag p.1
                    else p.1.name),
                [((fs.toList.zip vals).filter fun p =>
                    !p.2.isZero && !nenv.IsLcfirst p.1.name).map
                  (fun p => interfaceOf p.1.ty p.2)]))
      ∧ (∀ (nenv : NormEnv) (n : String) (c : Caps) (fs : Fields) (vals : List GoVal)
          (n' : String) (c' : Caps),
          parseStruct nenv
              (some ⟨.mk n' c' (.ptr (.mk n c (.struct fs))), .ptr (some (.struct vals))⟩)
            = parseStruct nenv (some ⟨.mk n c (.struct fs), .struct vals⟩)) := by
  refine ⟨rfl, ?_, ?_, ?_⟩
  · intro nenv n c fs vals h
    simp [parseStruct, parseStructAt, parseStructFields_fault nenv fs.toList vals h]
  · intro nenv n c fs vals h
    simp [parseStruct, parseStructAt, parseStructFields_ok nenv fs.toList vals h]
  · intro nenv n c fs vals n' c'
    simp [parseStruct, parseStructAt]

/-! ## C17: the column name of a record field -/

/-- C17 counterexample: the field `UserName` carries no override; `parseStruct`
names its column `UserName`, while `bind` looks the field up under
`user_name`. -/
theorem parseStruct_column_not_snake_case :
    parseStruct demoNorm (some ⟨tAcct, .struct [.str "ann", .int 0, .int 0]⟩)
        = (.ok, ["UserName"], [[Val.str "ann"]])
      ∧ columnOf demoEnv ⟨"UserName", true, none, tString⟩ = "user_name" := by
  constructor
  · rfl
  · decide

/-- C17 as amended: for a record whose non-zero fields are all exported, the
column list of `parseStruct` names every field it includes (the non-zero
fields that pass the name test, in declaration order) by the answer of
`zreflect.GetStructTag` for the field when that answer is not empty, and by
the declared field name, unchanged, otherwise.  `bind` derives its name
differently: the leading segment of the `BindTag` tag, or, when that is empty,
`zstring.CamelCaseToSnakeCase` of the field name. -/
theorem parseStruct_column_names (nenv : NormEnv) (env : Env) (n : String)
    (c : Caps) (fs : Fields) (vals : List GoVal)
    (hexp : ∀ p ∈ fs.toList.zip vals, p.2.isZero = false → p.1.exported = true) :
    (parseStruct nenv (some ⟨.mk n c (.struct fs), .struct vals⟩)).2.1
        = ((fs.toList.zip vals).filter fun p =>
              !p.2.isZero && !nenv.IsLcfirst p.1.name).map
            (fun p => if nenv.GetStructTag p.1 ≠ "" then nenv.GetStructTag p.1
              else p.1.name)
      ∧ (∀ f : StructField,
          columnOf env f
            = if (lookUpTagName f).1 = "" then env.CamelCaseToSnakeCase f.name
              else (lookUpTagName f).1) := by
  constructor
  · simp [parseStruct, parseStructAt, parseStructFields_ok nenv fs.toList vals hexp]
  · intro f
    rfl

/-- C17 witness: an `Acct` with `UserName` and `Age` set: the columns are
`UserName` (declared name) and `age` (override). -/
theorem parseStruct_column_names_witness :
    (parseStruct demoNorm (some ⟨tAcct, .struct [.str "ann", .int 3, .int 0]⟩)).2.1
      = ["UserName", "age"] :=
  (parseStruct_column_names demoNorm demoEnv "Acct" noCaps acctFields
    [.str "ann", .int 3, .int 0]
    (by
      intro p hp hz
      have hp' : p ∈ [((⟨"UserName", true, none, tString⟩ : StructField), GoVal.str "ann"),
          (⟨"Age", true, some "age", tInt⟩, GoVal.int 3),
          (⟨"secret", false, none, tInt⟩, GoVal.int 0)] := hp
      simp only [List.mem_cons, List.mem_singleton, List.not_mem_nil, or_false] at hp'
      rcases hp' with rfl | rfl | rfl
      · rfl
      · rfl
      · exact absurd hz (by decide))).1

/-! ## Auxiliary facts about `resolveTagName` -/

theorem take_indexOf_eq_takeWhile (c : Char) :
    ∀ l : List Char, l.take (l.indexOf c) = l.takeWhile (· != c) := by
  intro l
  induction l with
  | nil => simp
  | cons b l ih =>
    by_cases h : b = c
    · subst h
      simp [List.takeWhile_cons]
    · rw [List.indexOf_cons_ne l h, List.take_succ_cons, ih, List.takeWhile_cons]
      simp [h]

theorem resolveTagName_data (t : String) :
    (resolveTagName t).data = t.data.takeWhile (· != ',') := by
  rw [← take_indexOf_eq_takeWhile]
  unfold resolveTagName IndexByte
  by_cases h : t.data.indexOf ',' < t.data.length
  · have hne : ¬ ((-1 : Int) = ((t.data.indexOf ',' : Nat) : Int)) := by omega
    simp only [h, if_true, hne, if_false, Int.toNat_ofNat]
  · have hlen : t.data.indexOf ',' = t.data.length := by
      have := @List.indexOf_le_length _ _ ',' t.data
      omega
    simp only [hlen, Nat.lt_irrefl, if_false, if_true, List.take_length]

theorem not_mem_takeWhile_ne (c : Char) :
    ∀ l : List Char, c ∉ l.takeWhile (· != c) := by
  intro l
  induction l with
  | nil => simp
  | cons b l ih =>
    rw [List.takeWhile_cons]
    by_cases h : b = c
    · simp [h]
    · simp only [bne_iff_ne, ne_eq, h, not_false_eq_true, decide_True, if_true,
        List.mem_cons, not_or]
      exact ⟨fun hcb => h hcb.symm, ih⟩

theorem dropWhile_ne_head (c : Char) :
    ∀ l : List Char, l.dropWhile (· != c) = [] ∨ ∃ mods, l.dropWhile (· != c) = c :: mods := by
  intro l
  induction l with
  | nil => simp
  | cons b l ih =>
    rw [List.dropWhile_cons]
    by_cases h : b = c
    · right
      exact ⟨l, by simp [h]⟩
    · simpa [h] using ih

theorem length_le_takeWhile_ne (c : Char) :
    ∀ (p l r : List Char), l = p ++ r → c ∉ p →
      p.length ≤ (l.takeWhile (· != c)).length := by
  intro p
  induction p with
  | nil => intro l r _ _; simp
  | cons b p ih =>
    intro l r hl hc
    subst hl
    simp only [List.mem_cons, not_or] at hc
    have hb : b ≠ c := fun h => hc.1 h.symm
    rw [List.cons_append, List.takeWhile_cons]
    simp only [bne_iff_ne, ne_eq, hb, not_false_eq_true, decide_True, if_true,
      List.length_cons]
    exact Nat.succ_le_succ (ih (p ++ r) r rfl hc.2)

theorem takeWhile_ne_of_not_mem (c : Char) :
    ∀ l : List Char, c ∉ l → l.takeWhile (· != c) = l := by
  intro l
  induction l with
  | nil => simp
  | cons b l ih =>
    intro h
    simp only [List.mem_cons, not_or] at h
    have hb : b ≠ c := fun hbc => h.1 hbc.symm
    rw [List.takeWhile_cons]
    simp [hb, ih h.2]

theorem resolveTagName_of_no_comma (t : String) (h : ',' ∉ t.data) :
    resolveTagName t = t := by
  have hd := resolveTagName_data t
  rw [takeWhile_ne_of_not_mem ',' t.data h] at hd
  exact String.ext hd

/-! ## C18: the leading segment of a tag -/

/-- C18: for every tag `t`, `resolveTagName t` (1) contains no comma; (2) is
`t` itself, or `t` is it followed by a comma and the remaining modifiers;
(3) is the longest such beginning of `t`: any beginning of `t` without a comma
is no longer; (4) is `t` when `t` has no comma; (5) is left unchanged by
`resolveTagName`.  (6) When the tag of a field has an empty leading segment,
`bind` looks the field up under `CamelCaseToSnakeCase` of its name, and passes
over the field when the row has no entry under that name. -/
theorem resolveTagName_leading_segment (t : String) :
    ',' ∉ (resolveTagName t).data
      ∧ (t = resolveTagName t ∨ ∃ mods : String, t = resolveTagName t ++ "," ++ mods)
      ∧ (∀ p r : List Char, t.data = p ++ r → ',' ∉ p →
          p.length ≤ (resolveTagName t).data.length)
      ∧ (',' ∉ t.data → resolveTagName t = t)
      ∧ resolveTagName (resolveTagName t) = resolveTagName t
      ∧ (∀ (env : Env) (f : StructField), f.tag = some t → resolveTagName t = "" →
          columnOf env f = env.CamelCaseToSnakeCase f.name
            ∧ ∀ (result : Row) (rest : List StructField) (i : Nat) (vals : List GoVal),
                result.lookup (env.CamelCaseToSnakeCase f.name) = none →
                bindFields env result (f :: rest) i vals
                  = bindFields env result rest (i + 1) vals) := by
  have hd := resolveTagName_data t
  have h1 : ',' ∉ (resolveTagName t).data := by
    rw [hd]; exact not_mem_takeWhile_ne ',' t.data
  refine ⟨h1, ?_, ?_, resolveTagName_of_no_comma t,
    resolveTagName_of_no_comma _ h1, ?_⟩
  · have hsplit : t.data = (resolveTagName t).data ++ t.data.dropWhile (· != ',') := by
      rw [hd, List.takeWhile_append_dropWhile]
    rcases dropWhile_ne_head ',' t.data with h | ⟨mods, h⟩
    · left
      apply String.ext
      rw [h, List.append_nil] at hsplit
      exact hsplit
    · right
      refine ⟨String.mk mods, ?_⟩
      apply String.ext
      rw [String.data_append, String.data_append]
      rw [h] at hsplit
      rw [List.append_assoc]
      exact hsplit
  · intro p r hpr hp
    rw [hd]
    exact length_le_takeWhile_ne ',' p t.data r hpr hp
  · intro env f hf hempty
    have hcol : columnOf env f = env.CamelCaseToSnakeCase f.name := by
      simp [columnOf, lookUpTagName, hf, hempty]
    refine ⟨hcol, ?_⟩
    intro result rest i vals hl
    exact bindFields_skip env result f (Or.inl (by rw [hcol]; exact hl)) rest i vals

/-! ## Auxiliary facts about the insert builder -/

theorem placeholderIndices_append (ps qs : List Piece) :
    placeholderIndices (ps ++ qs) = placeholderIndices ps ++ placeholderIndices qs := by
  induction ps with
  | nil => rfl
  | cons p ps ih =>
    cases p with
    | lit s => simpa [placeholderIndices] using ih
    | ph i => simp [placeholderIndices, ih]

theorem placeholderIndices_rowPieces :
    ∀ (row : List Arg) (n : Nat),
      placeholderIndices (rowPieces n row) = List.range' (n + 1) (rowValues row).length := by
  intro row
  induction row with
  | nil => intro n; simp [rowPieces, rowValues, placeholderIndices]
  | cons a as ih =>
    intro n
    cases a with
    | raw s => simpa [rowPieces, rowValues, placeholderIndices] using ih n
    | value v =>
      simp only [rowPieces, rowValues, placeholderIndices, List.length_cons,
        List.range'_succ, ih (n + 1)]

theorem placeholderIndices_rowsPieces :
    ∀ (rows : List (List Arg)) (n : Nat),
      placeholderIndices (rowsPieces n rows).flatten
        = List.range' (n + 1) (rowsValues rows).length := by
  intro rows
  induction rows with
  | nil => intro n; simp [rowsPieces, rowsValues, placeholderIndices]
  | cons r rs ih =>
    intro n
    have hsplit : List.range' (n + 1) ((rowValues r).length + (rowsValues rs).length)
        = List.range' (n + 1) (rowValues r).length
          ++ List.range' (n + (rowValues r).length + 1) (rowsValues rs).length := by
      rw [show n + (rowValues r).length + 1 = n + 1 + (rowValues r).length by omega,
        List.range'_append_1, Nat.add_comm (rowsValues rs).length]
    simp only [rowsPieces, rowsValues, List.flatten_cons, placeholderIndices_append,
      placeholderIndices_rowPieces, ih, List.length_append, hsplit]

theorem rowPieces_length : ∀ (row : List Arg) (n : Nat),
    (rowPieces n row).length = row.length := by
  intro row
  induction row with
  | nil => intro n; rfl
  | cons a as ih =>
    intro n
    cases a <;> simp [rowPieces, ih]

theorem rowPieces_raw : ∀ (row : List Arg) (n j : Nat) (s : String),
    row[j]? = some (Arg.raw s) → (rowPieces n row)[j]? = some (Piece.lit s) := by
  intro row
  induction row with
  | nil => intro n j s h; simp at h
  | cons a as ih =>
    intro n j s h
    cases j with
    | zero =>
      simp only [List.getElem?_cons_zero, Option.some.injEq] at h
      subst h
      simp [rowPieces]
    | succ j =>
      simp only [List.getElem?_cons_succ] at h
      cases a with
      | raw s' => simpa [rowPieces] using ih n j s h
      | value v => simpa [rowPieces] using ih (n + 1) j s h

/-! ## Auxiliary facts about the text of a built statement -/

theorem occurrences_append (c : Char) (s t : String) :
    occurrences c (s ++ t) = occurrences c s + occurrences c t := by
  simp [occurrences, String.data_append, List.count_append]

theorem digitChar_ne_dollar (m : Nat) (h : m < 10) : Nat.digitChar m ≠ '$' := by
  interval_cases m <;> decide

theorem toDigitsCore_no_dollar : ∀ (fuel n : Nat) (acc : List Char),
    (∀ c ∈ acc, c ≠ '$') → ∀ c ∈ Nat.toDigitsCore 10 fuel n acc, c ≠ '$' := by
  intro fuel
  induction fuel with
  | zero => intro n acc h c hc; simpa [Nat.toDigitsCore] using h c (by simpa [Nat.toDigitsCore] using hc)
  | succ fuel ih =>
    intro n acc h c hc
    have hacc : ∀ c ∈ Nat.digitChar (n % 10) :: acc, c ≠ '$' := by
      intro c' hc'
      rcases List.mem_cons.mp hc' with rfl | hc''
      · exact digitChar_ne_dollar _ (Nat.mod_lt _ (by decide))
      · exact h c' hc''
    rw [Nat.toDigitsCore] at hc
    split at hc
    · exact hacc c hc
    · exact ih _ _ hacc c hc

theorem occurrences_repr (n : Nat) : occurrences '$' (Nat.repr n) = 0 := by
  unfold occurrences
  rw [List.count_eq_zero]
  intro h
  exact toDigitsCore_no_dollar _ _ [] (by simp) '$' (by simpa [Nat.repr, Nat.toDigits, List.asString] using h) rfl

theorem occurrences_placeholder (d : Dialect) (i : Nat) :
    occurrences d.mark (d.Placeholder i) = 1 := by
  unfold Dialect.mark Dialect.Placeholder
  by_cases h : d.numbered = true
  · simp only [h, if_true, occurrences_append, occurrences_repr]
    rfl
  · simp only [h, if_false]
    rfl

theorem occurrences_commaJoin (c : Char) (hc : occurrences c ", " = 0) :
    ∀ l : List String, occurrences c (commaJoin l) = (l.map (occurrences c)).sum := by
  intro l
  induction l with
  | nil => rfl
  | cons s rest ih =>
    cases rest with
    | nil => simp [commaJoin]
    | cons t rest =>
      rw [commaJoin, occurrences_append, occurrences_append, hc, ih]
      simp

theorem mark_comma (d : Dialect) : occurrences d.mark ", " = 0 := by
  unfold Dialect.mark
  by_cases h : d.numbered = true <;> simp only [h, if_true, if_false] <;> rfl

theorem mark_paren (d : Dialect) :
    occurrences d.mark "(" = 0 ∧ occurrences d.mark ")" = 0 := by
  unfold Dialect.mark
  by_cases h : d.numbered = true <;> simp only [h, if_true, if_false] <;> exact ⟨rfl, rfl⟩

theorem occurrences_rowPieces (d : Dialect) :
    ∀ (row : List Arg) (n : Nat),
      (∀ s, Arg.raw s ∈ row → occurrences d.mark s = 0) →
      ((rowPieces n row).map fun p => occurrences d.mark (Piece.render d p)).sum
        = (rowValues row).length := by
  intro row
  induction row with
  | nil => intro n _; rfl
  | cons a as ih =>
    intro n h
    have ih' := fun n => ih n (fun s hs => h s (List.mem_cons_of_mem _ hs))
    cases a with
    | raw s =>
      have hs : occurrences d.mark (Piece.render d (.lit s)) = 0 :=
        h s (List.mem_cons_self _ _)
      simp only [rowPieces, rowValues, List.map_cons, List.sum_cons, ih', hs,
        Nat.zero_add]
    | value v =>
      have hp : occurrences d.mark (Piece.render d (.ph (n + 1))) = 1 :=
        occurrences_placeholder d (n + 1)
      simp only [rowPieces, rowValues, List.map_cons, List.sum_cons, ih', hp,
        List.length_cons]
      omega

theorem occurrences_renderRow (d : Dialect) (row : List Arg) (n : Nat)
    (h : ∀ s, Arg.raw s ∈ row → occurrences d.mark s = 0) :
    occurrences d.mark (renderRow d (rowPieces n row)) = (rowValues row).length := by
  unfold renderRow
  rw [occurrences_append, occurrences_append, (mark_paren d).1, (mark_paren d).2,
    occurrences_commaJoin _ (mark_comma d), List.map_map]
  have := occurrences_rowPieces d row n h
  simpa [Function.comp] using this

theorem occurrences_rows (d : Dialect) :
    ∀ (rows : List (List Arg)) (n : Nat),
      (∀ row ∈ rows, ∀ s, Arg.raw s ∈ row → occurrences d.mark s = 0) →
      (((rowsPieces n rows).map (renderRow d)).map (occurrences d.mark)).sum
        = (rowsValues rows).length := by
  intro rows
  induction rows with
  | nil => intro n _; rfl
  | cons r rs ih =>
    intro n h
    simp only [rowsPieces, rowsValues, List.map_cons, List.sum_cons, List.length_append]
    rw [occurrences_renderRow d r n (h r (List.mem_cons_self _ _)),
      ih _ (fun row hrow => h row (List.mem_cons_of_mem _ hrow))]

theorem occurrences_renderOptions (c : Char) (hc : occurrences c " " = 0) :
    ∀ os : List String, (∀ o ∈ os, occurrences c o = 0) →
      occurrences c (renderOptions os) = 0 := by
  intro os
  induction os with
  | nil => intro _; rfl
  | cons o os ih =>
    intro h
    rw [renderOptions, occurrences_append, occurrences_append, hc,
      h o (List.mem_cons_self _ _), ih (fun o' ho' => h o' (List.mem_cons_of_mem _ ho'))]

theorem build_text_occurrences (b : InsertBuilder)
    (hq : occurrences b.dialect.mark b.dialect.quoteMark = 0)
    (ht : occurrences b.dialect.mark b.table = 0)
    (hcols : ∀ c ∈ b.cols, occurrences b.dialect.mark c = 0)
    (hraw : ∀ row ∈ b.rows, ∀ s, Arg.raw s ∈ row → occurrences b.dialect.mark s = 0)
    (hopt : ∀ o ∈ b.options, occurrences b.dialect.mark o = 0) :
    occurrences b.dialect.mark
        (b.mode.keyword ++ " INTO " ++ b.dialect.Quote b.table ++ " ("
          ++ commaJoin (b.cols.map b.dialect.Quote) ++ ") VALUES "
          ++ commaJoin ((rowsPieces 0 b.rows).map (renderRow b.dialect))
          ++ renderOptions b.options)
      = (rowsValues b.rows).length := by
  have hquote : ∀ s, occurrences b.dialect.mark s = 0 →
      occurrences b.dialect.mark (b.dialect.Quote s) = 0 := by
    intro s hs
    simp [Dialect.Quote, occurrences_append, hq, hs]
  have hlit : occurrences b.dialect.mark b.mode.keyword = 0
      ∧ occurrences b.dialect.mark " INTO " = 0
      ∧ occurrences b.dialect.mark " (" = 0
      ∧ occurrences b.dialect.mark ") VALUES " = 0
      ∧ occurrences b.dialect.mark " " = 0 := by
    unfold Dialect.mark
    by_cases h : b.dialect.numbered = true <;> simp only [h, if_true, if_false] <;>
      cases b.mode <;> exact ⟨rfl, rfl, rfl, rfl, rfl⟩
  obtain ⟨h1, h2, h3, h4, h5⟩ := hlit
  have hc : (List.map (occurrences b.dialect.mark) (b.cols.map b.dialect.Quote)).sum = 0 := by
    rw [List.sum_eq_zero]
    intro x hx
    simp only [List.map_map, List.mem_map, Function.comp] at hx
    obtain ⟨c, hcm, rfl⟩ := hx
    exact hquote c (hcols c hcm)
  simp only [occurrences_append, h1, h2, h3, h4, hquote b.table ht,
    occurrences_commaJoin _ (mark_comma b.dialect), hc,
    occurrences_rows b.dialect b.rows 0 hraw,
    occurrences_renderOptions _ h5 b.options hopt]
  omega

/-! ## C19: placeholders and arguments of a built statement -/

/-- C19: for every builder with at least one row, under every dialect, `Build`
succeeds with the text of the specification, whose VALUES list is the
rendering of the pieces of the rows, and the values of the rows as arguments.
The placeholders written are as many as the arguments, and their position
indices are 1, 2, ..., m in text order, m being the argument count, so a
numbered dialect writes `$1` ... `$m` with no number skipped.  A raw
expression at position `j` of a row gives the piece at position `j` that is
its text verbatim, and adds neither a placeholder nor an argument.  In the
text itself: when the character that begins a placeholder (`$` or `?`) occurs
neither in the quote mark, the table, the columns, the raw expressions nor the
options, it occurs in the text exactly as many times as there are
arguments. -/
theorem Build_placeholders_match_args (b : InsertBuilder) (hrows : b.rows ≠ []) :
    b.Build
        = .ok (b.mode.keyword ++ " INTO " ++ b.dialect.Quote b.table ++ " ("
            ++ commaJoin (b.cols.map b.dialect.Quote) ++ ") VALUES "
            ++ commaJoin ((rowsPieces 0 b.rows).map (renderRow b.dialect))
            ++ renderOptions b.options,
          rowsValues b.rows)
      ∧ (placeholderIndices b.pieces).length = (rowsValues b.rows).length
      ∧ placeholderIndices b.pieces = List.range' 1 (rowsValues b.rows).length
      ∧ (∀ i : Nat, Piece.render b.dialect (.ph i)
          = if b.dialect.numbered then "$" ++ Nat.repr i else "?")
      ∧ (∀ (n j : Nat) (row : List Arg) (s : String), row[j]? = some (Arg.raw s) →
          (rowPieces n row)[j]? = some (Piece.lit s)
            ∧ Piece.render b.dialect (.lit s) = s)
      ∧ (∀ (n : Nat) (row : List Arg),
          (rowPieces n row).length = row.length
            ∧ (placeholderIndices (rowPieces n row)).length = (rowValues row).length)
      ∧ (∀ (text : String) (args : List Val), b.Build = .ok (text, args) →
          occurrences b.dialect.mark b.dialect.quoteMark = 0 →
          occurrences b.dialect.mark b.table = 0 →
          (∀ c ∈ b.cols, occurrences b.dialect.mark c = 0) →
          (∀ row ∈ b.rows, ∀ s, Arg.raw s ∈ row → occurrences b.dialect.mark s = 0) →
          (∀ o ∈ b.options, occurrences b.dialect.mark o = 0) →
          occurrences b.dialect.mark text = args.length) := by
  have hidx : placeholderIndices b.pieces = List.range' 1 (rowsValues b.rows).length := by
    simpa [InsertBuilder.pieces] using placeholderIndices_rowsPieces b.rows 0
  have hbuild : b.Build
      = .ok (b.mode.keyword ++ " INTO " ++ b.dialect.Quote b.table ++ " ("
          ++ commaJoin (b.cols.map b.dialect.Quote) ++ ") VALUES "
          ++ commaJoin ((rowsPieces 0 b.rows).map (renderRow b.dialect))
          ++ renderOptions b.options,
        rowsValues b.rows) := by
    unfold InsertBuilder.Build
    cases hr : b.rows with
    | nil => exact absurd hr hrows
    | cons r rs => rfl
  refine ⟨hbuild, ?_, hidx, ?_, ?_, ?_, ?_⟩
  · rw [hidx, List.length_range']
  · intro i
    rfl
  · intro n j row s h
    exact ⟨rowPieces_raw row n j s h, rfl⟩
  · intro n row
    exact ⟨rowPieces_length row n, by rw [placeholderIndices_rowPieces, List.length_range']⟩
  · intro text args hb hq ht hcols hraw hopt
    rw [hbuild] at hb
    simp only [Except.ok.injEq, Prod.mk.injEq] at hb
    obtain ⟨htext, hargs⟩ := hb
    rw [← htext, ← hargs]
    exact build_text_occurrences b hq ht hcols hraw hopt

/-- C19 witness: the two builders of `TestInsert`: two placeholders `$1`, `$2`
and two arguments under the numbered dialect; two placeholders `?` and two
arguments, the raw expression spliced verbatim, under the fixed one; in both
texts the placeholder character occurs twice. -/
theorem Build_placeholders_match_args_witness :
    demoInsertNumbered.Build
        = .ok ("INSERT INTO \"user\" (\"username\", \"age\") VALUES ($1, $2)",
            [Val.str "new user", Val.int 18])
      ∧ placeholderIndices demoInsertNumbered.pieces = [1, 2]
      ∧ occurrences '$' "INSERT INTO \"user\" (\"username\", \"age\") VALUES ($1, $2)" = 2
      ∧ demoInsertRaw.Build
        = .ok ("INSERT INTO `user` (`username`, `age`, `create_at`) VALUES "
              ++ "(?, ?, UNIX_TIMESTAMP(NOW())) ON DUPLICATE KEY UPDATE age = VALUES(age)",
            [Val.str "new user", Val.int 18])
      ∧ placeholderIndices demoInsertRaw.pieces = [1, 2]
      ∧ occurrences '?' ("INSERT INTO `user` (`username`, `age`, `create_at`) VALUES "
            ++ "(?, ?, UNIX_TIMESTAMP(NOW())) ON DUPLICATE KEY UPDATE age = VALUES(age)")
          = 2 :=
  ⟨(Build_placeholders_match_args demoInsertNumbered (by simp [demoInsertNumbered])).1,
    (Build_placeholders_match_args demoInsertNumbered (by simp [demoInsertNumbered])).2.2.1,
    (Build_placeholders_match_args demoInsertNumbered
        (by simp [demoInsertNumbered])).2.2.2.2.2.2 _ _ rfl (by decide) (by decide)
      (by decide)
      (by
        intro row hrow s hs
        have hrow' : row ∈ [[Arg.value (Val.str "new user"), Arg.value (Val.int 18)]] :=
          hrow
        simp only [List.mem_singleton] at hrow'
        subst hrow'
        simp at hs)
      (by decide),
    (Build_placeholders_match_args demoInsertRaw (by simp [demoInsertRaw])).1,
    (Build_placeholders_match_args demoInsertRaw (by simp [demoInsertRaw])).2.2.1,
    (Build_placeholders_match_args demoInsertRaw
        (by simp [demoInsertRaw])).2.2.2.2.2.2 _ _ rfl (by decide) (by decide)
      (by decide)
      (by
        intro row hrow s hs
        have hrow' : row ∈ [[Arg.value (Val.str "new user"), Arg.value (Val.int 18),
            Arg.raw "UNIX_TIMESTAMP(NOW())"]] := hrow
        simp only [List.mem_singleton] at hrow'
        subst hrow'
        simp at hs
        subst hs
        decide)
      (by decide)⟩

theorem rowValues_values (vs : List Val) : rowValues (vs.map Arg.value) = vs := by
  induction vs with
  | nil => rfl
  | cons v vs ih => simp [rowValues, ih]

theorem rowsValues_values (vrows : List (List Val)) :
    rowsValues (vrows.map fun r => r.map Arg.value) = vrows.flatten := by
  induction vrows with
  | nil => rfl
  | cons r rs ih => simp [rowsValues, rowValues_values, ih]

theorem rowPieces_values : ∀ (vs : List Val) (n : Nat),
    rowPieces n (vs.map Arg.value)
      = (List.range vs.length).map fun j => Piece.ph (n + j + 1) := by
  intro vs
  induction vs with
  | nil => intro n; rfl
  | cons v vs ih =>
    intro n
    simp only [List.map_cons, rowPieces, List.length_cons, List.range_succ_eq_map,
      List.map_map, ih (n + 1)]
    refine congrArg₂ _ rfl (List.map_congr_left ?_)
    intro j _
    simp only [Function.comp, Nat.succ_eq_add_one]
    congr 1
    omega

theorem rowsPieces_values (k : Nat) : ∀ (vrows : List (List Val)) (n : Nat),
    (∀ r ∈ vrows, r.length = k) →
    rowsPieces n (vrows.map fun r => r.map Arg.value)
      = (List.range vrows.length).map fun i =>
          (List.range k).map fun j => Piece.ph (n + i * k + j + 1) := by
  intro vrows
  induction vrows with
  | nil => intro n _; rfl
  | cons r rs ih =>
    intro n h
    have hr : r.length = k := h r (List.mem_cons_self _ _)
    simp only [List.map_cons, rowsPieces, List.length_cons, List.range_succ_eq_map,
      List.map_map, rowValues_values, rowPieces_values, hr,
      ih (n + k) (fun r' hr' => h r' (List.mem_cons_of_mem _ hr'))]
    refine congrArg₂ _ ?_ (List.map_congr_left ?_)
    · refine List.map_congr_left ?_
      intro j _
      simp
    · intro i _
      refine List.map_congr_left ?_
      intro j _
      simp only [Function.comp, Nat.succ_eq_add_one]
      congr 1
      rw [Nat.add_mul, Nat.one_mul]
      omega

/-! ## C20: batches and REPLACE -/

/-- C20: for a builder in either mode with columns `cols` and the rows
`vrows`, at least one, each of as many values as there are columns and none a
raw expression, `Build` returns the text
`<MODE> INTO <table> (<cols>) VALUES <groups><options>`, where the quoted
columns are joined by ", " and there is one group per row, in append order,
joined by ", ", the group of row `i` being the parenthesised placeholders of
positions `i * k + 1` ... `i * k + k` (`k` the column count) joined by ", ";
the arguments are the rows flattened row-major.  The text in REPLACE mode and
the text in INSERT mode are the keywords `REPLACE` and `INSERT` followed by
the same text, and the arguments are the same. -/
theorem Build_batch (table : String) (mode : Mode) (d : Dialect)
    (cols : List String) (vrows : List (List Val)) (opts : List String)
    (hne : vrows ≠ []) (hw : ∀ r ∈ vrows, r.length = cols.length) :
    InsertBuilder.Build ⟨table, mode, d, cols, vrows.map fun r => r.map Arg.value, opts⟩
        = .ok (mode.keyword ++ " INTO " ++ d.Quote table ++ " ("
            ++ commaJoin (cols.map d.Quote) ++ ") VALUES "
            ++ commaJoin ((List.range vrows.length).map fun i =>
                "(" ++ commaJoin ((List.range cols.length).map fun j =>
                  d.Placeholder (i * cols.length + j + 1)) ++ ")")
            ++ renderOptions opts,
          vrows.flatten)
      ∧ ∃ tail : String,
          InsertBuilder.Build
              ⟨table, .insert, d, cols, vrows.map fun r => r.map Arg.value, opts⟩
            = .ok ("INSERT" ++ tail, vrows.flatten)
          ∧ InsertBuilder.Build
              ⟨table, .replace, d, cols, vrows.map fun r => r.map Arg.value, opts⟩
            = .ok ("REPLACE" ++ tail, vrows.flatten) := by
  have hrows : ∀ m : Mode,
      InsertBuilder.Build ⟨table, m, d, cols, vrows.map fun r => r.map Arg.value, opts⟩
        = .ok (m.keyword ++ " INTO " ++ d.Quote table ++ " ("
            ++ commaJoin (cols.map d.Quote) ++ ") VALUES "
            ++ commaJoin ((List.range vrows.length).map fun i =>
                "(" ++ commaJoin ((List.range cols.length).map fun j =>
                  d.Placeholder (i * cols.length + j + 1)) ++ ")")
            ++ renderOptions opts,
          vrows.flatten) := by
    intro m
    cases vrows with
    | nil => exact absurd rfl hne
    | cons r rs =>
      have hp := rowsPieces_values cols.length (r :: rs) 0 hw
      have hv := rowsValues_values (r :: rs)
      simp only [List.map_cons] at hp hv
      have hrender : ∀ i : Nat,
          renderRow d ((List.range cols.length).map fun j =>
              Piece.ph (0 + i * cols.length + j + 1))
            = "(" ++ commaJoin ((List.range cols.length).map fun j =>
                d.Placeholder (i * cols.length + j + 1)) ++ ")" := by
        intro i
        simp only [renderRow, List.map_map, Nat.zero_add]
        rfl
      have hfun : (renderRow d ∘ fun i => (List.range cols.length).map fun j =>
              Piece.ph (0 + i * cols.length + j + 1))
            = fun i => "(" ++ commaJoin ((List.range cols.length).map fun j =>
                d.Placeholder (i * cols.length + j + 1)) ++ ")" :=
        funext hrender
      simp only [InsertBuilder.Build, List.map_cons, hp, hv, List.map_map, hfun]
  refine ⟨hrows mode, " INTO " ++ d.Quote table ++ " ("
      ++ commaJoin (cols.map d.Quote) ++ ") VALUES "
      ++ commaJoin ((List.range vrows.length).map fun i =>
          "(" ++ commaJoin ((List.range cols.length).map fun j =>
            d.Placeholder (i * cols.length + j + 1)) ++ ")")
      ++ renderOptions opts, ?_, ?_⟩
  · rw [hrows]
    simp only [Mode.keyword, String.append_assoc]
  · rw [hrows]
    simp only [Mode.keyword, String.append_assoc]

/-- C20 witness: the builder of `TestBatchInsert`, and the same builder in
REPLACE mode. -/
theorem Build_batch_witness :
    (demoBatch .insert).Build
        = .ok ("INSERT INTO `user` (`username`, `age`) VALUES (?, ?), (?, ?)",
            [Val.str "new user", Val.int 18, Val.str "new user2", Val.int 199])
      ∧ (demoBatch .replace).Build
        = .ok ("REPLACE INTO `user` (`username`, `age`) VALUES (?, ?), (?, ?)",
            [Val.str "new user", Val.int 18, Val.str "new user2", Val.int 199]) :=
  ⟨(Build_batch "user" .insert mysqlDialect ["username", "age"]
      [[Val.str "new user", Val.int 18], [Val.str "new user2", Val.int 199]] []
      (by simp)
      (by
        intro r hr
        simp only [List.mem_cons, List.mem_singleton, List.not_mem_nil, or_false] at hr
        rcases hr with rfl | rfl <;> rfl)).1,
    (Build_batch "user" .replace mysqlDialect ["username", "age"]
      [[Val.str "new user", Val.int 18], [Val.str "new user2", Val.int 199]] []
      (by simp)
      (by
        intro r hr
        simp only [List.mem_cons, List.mem_singleton, List.not_mem_nil, or_false] at hr
        rcases hr with rfl | rfl <;> rfl)).1⟩

end Zdb
